import Mathlib
/-!
Verification development for the `kayak` matrix-operation layer
(`kayak/matrix_ops.py`): a reverse-mode automatic-differentiation engine
over dense arrays.  Arrays are embedded shallowly as a shape (list of
dimension sizes) together with a row-major flat data function `Nat → Int`;
an entry is meaningful only at flat indices below the product of the
shape.  The numpy primitives the source calls (`np.dot`, `np.outer`,
`np.transpose`, `np.reshape`, `np.sum`, `np.split`, `np.concatenate`,
broadcasting for `+`/`*`) are modelled by `np...` definitions below, on
the argument ranks the source exercises; each operation class of
`matrix_ops.py` (`MatMult`, `MatSum`, `MatAdd`, `Transpose`, `Reshape`,
`Concatenate`) is embedded with its constructor checks, `shape`,
`compute_value` and `local_grad` translated line by line.  Graph nodes
are compared by reference identity in the source (`parent is self.A`);
an operand is therefore modelled as an identity tag together with its
value.
-/

/-- A dense n-dimensional array: a shape and row-major flat data.
Entries at flat indices `≥ shape.prod` are junk and never observed. -/
structure NDArray where
  shape : List Nat
  data : Nat → Int
/-- Number of (meaningful) elements. -/
def NDArray.size (a : NDArray) : Nat := a.shape.prod
/-- Row-major flattening of a multi-index for a given shape. -/
def flattenIdx : List Nat → List Nat → Nat
  | _ :: ss, i :: is => i * ss.prod + flattenIdx ss is
  | _, _ => 0
/-- Row-major unflattening of a flat index into a multi-index. -/
def unflattenIdx : List Nat → Nat → List Nat
  | [], _ => []
  | _ :: ss, n => n / ss.prod :: unflattenIdx ss (n % ss.prod)
/-- A multi-index is valid for a shape when it has the same length and is
pointwise below the dimension sizes. -/
def validIdx : List Nat → List Nat → Prop
  | s :: ss, i :: is => i < s ∧ validIdx ss is
  | [], [] => True
  | _, _ => False
instance instDecValidIdx : (s idx : List Nat) → Decidable (validIdx s idx)
  | _ :: ss, _ :: is => @instDecidableAnd _ _ _ (instDecValidIdx ss is)
  | [], [] => .isTrue trivial
  | [], _ :: _ => .isFalse (fun h => h)
  | _ :: _, [] => .isFalse (fun h => h)
/-- Entry of an array at a multi-index. -/
def NDArray.get (a : NDArray) (idx : List Nat) : Int :=
  a.data (flattenIdx a.shape idx)
/-- Extensional equality of arrays: same shape, same entries at every
meaningful flat index (numpy arrays compare by value). -/
def aeq (a b : NDArray) : Prop :=
  a.shape = b.shape ∧ ∀ n, n < a.size → a.data n = b.data n
instance instDecAeq (a b : NDArray) : Decidable (aeq a b) :=
  inferInstanceAs (Decidable (a.shape = b.shape ∧ ∀ n, n < a.size → a.data n = b.data n))
/-- The all-ones array of a given shape (`np.ones`). -/
def npOnes (s : List Nat) : NDArray := ⟨s, fun _ => 1⟩
/-- Select entries of `l` at the positions listed in `p`:
`np.transpose`'s result shape is `applyPerm p shape`, and index
manipulation under a permutation is `applyPerm` as well. -/
def applyPerm (p l : List Nat) : List Nat := p.map (fun k => l.getD k 0)
/-- `np.argsort`, on the inputs the embedded code ever passes to it:
permutations of `0..n-1`, where argsort computes the inverse permutation
(the position of each value `m` in the list). -/
def npArgsort (l : List Nat) : List Nat :=
  (List.range l.length).map (fun m => l.indexOf m)
/-- `np.transpose(a)` / `a.T` with no axes: reverse all dimensions. -/
def npT (a : NDArray) : NDArray :=
  ⟨a.shape.reverse,
    fun n => a.data (flattenIdx a.shape ((unflattenIdx a.shape.reverse n).reverse))⟩
/-- `np.transpose(a, axes)`: `axes` must be a permutation of the
dimensions, else numpy raises (modelled as `none`).  Result index `j`
reads source index `i` with `i[m] = j[p⁻¹[m]]`. -/
def npTranspose (a : NDArray) : Option (List Nat) → Option NDArray
  | none => some (npT a)
  | some p =>
    if p.Perm (List.range a.shape.length) then
      some ⟨applyPerm p a.shape,
        fun n => a.data (flattenIdx a.shape
          (applyPerm (npArgsort p) (unflattenIdx (applyPerm p a.shape) n)))⟩
    else none
/-- `np.outer(a, b)`: both arguments are flattened; result has shape
`(a.size, b.size)` with entries `a[i] * b[j]`. -/
def npOuter (a b : NDArray) : NDArray :=
  ⟨[a.size, b.size], fun n => a.data (n / b.size) * b.data (n % b.size)⟩
/-- `np.dot(a, b)` on the argument ranks the embedded code exercises:
matrix × matrix (inner dimensions must agree) and matrix × vector.
Other rank combinations are outside the verified scope and modelled as
`none`. -/
def npDot (a b : NDArray) : Option NDArray :=
  match a.shape, b.shape with
  | [m, k], [k', p] =>
    if k = k' then
      some ⟨[m, p], fun n =>
        ∑ j in Finset.range k, a.data ((n / p) * k + j) * b.data (j * p + n % p)⟩
    else none
  | [m, k], [k'] =>
    if k = k' then
      some ⟨[m], fun n => ∑ j in Finset.range k, a.data (n * k + j) * b.data j⟩
    else none
  | _, _ => none
/-- `np.reshape(a, s)`: succeeds iff the element count is preserved; the
row-major flat data is unchanged. -/
def npReshape (a : NDArray) (s : List Nat) : Option NDArray :=
  if a.shape.prod = s.prod then some ⟨s, a.data⟩ else none
/-- `np.expand_dims(a, ax)`: insert a size-1 axis; the row-major flat
layout is unchanged. -/
def npExpandDims (a : NDArray) (ax : Nat) : NDArray :=
  ⟨a.shape.insertIdx ax 1, a.data⟩
/-- Shape of `np.atleast_1d(d)`: a 0-d array becomes shape `(1,)`. -/
def atleast1dShape (s : List Nat) : List Nat := if s = [] then [1] else s
/-- Modelled from the spec: the shape/broadcast utility `broadcast` that
is imported from `util`, whose source file is not part of this
repository snapshot.  Spec §4.1: right-align the two shapes; aligned dimensions are
compatible if equal or if one of them is 1 (result is the non-1 value);
missing leading dimensions count as 1; incompatibility yields no result.
`broadcastDim` is the single-dimension rule. -/
def broadcastDim (x y : Nat) : Option Nat :=
  if x = y then some x else if x = 1 then some y else if y = 1 then some x else none
/-- Modelled from the spec: the right-aligned walk of `broadcast`,
operating on reversed shapes (trailing dimension first). -/
def broadcastRev : List Nat → List Nat → Option (List Nat)
  | [], ys => some ys
  | xs, [] => some xs
  | x :: xs, y :: ys =>
    match broadcastDim x y, broadcastRev xs ys with
    | some d, some rest => some (d :: rest)
    | _, _ => none
/-- Modelled from the spec: `util.broadcast(shapeA, shapeB)` returns the
broadcast shape or `None` on incompatibility (spec §4.1). -/
def broadcast (sa sb : List Nat) : Option (List Nat) :=
  (broadcastRev sa.reverse sb.reverse).map List.reverse
/-- Map a multi-index of the broadcast output shape to the multi-index
of an operand of shape `sa`: drop the extra leading axes and clamp the
operand's size-1 axes to 0 (numpy broadcasting semantics). -/
def bcastIndex (sa idx : List Nat) : List Nat :=
  List.zipWith (fun i s => if s = 1 then 0 else i) (idx.drop (idx.length - sa.length)) sa
/-- A broadcasting elementwise binary operation (numpy `+`, `*`):
defined exactly when the operand shapes broadcast. -/
def npBinop (f : Int → Int → Int) (a b : NDArray) : Option NDArray :=
  (broadcast a.shape b.shape).map (fun s =>
    ⟨s, fun n =>
      f (a.get (bcastIndex a.shape (unflattenIdx s n)))
        (b.get (bcastIndex b.shape (unflattenIdx s n)))⟩)
/-- The mathematical forward broadcast of an array to a target shape
(the implicit expansion performed by a broadcasting operation). -/
def broadcastTo (a : NDArray) (s : List Nat) : NDArray :=
  ⟨s, fun n => a.get (bcastIndex a.shape (unflattenIdx s n))⟩
/-- Sum of the elementwise product of two arrays of the same shape (the
inner product used to state adjointness of the broadcast). -/
def dotAll (a b : NDArray) : Int :=
  ∑ n in Finset.range a.size, a.data n * b.data n
/-- Remove from `s` the entries whose (absolute) positions are listed in
`axes`; `i` is the position of the head of `s`. -/
def removeAxesGo (axes : List Nat) : List Nat → Nat → List Nat
  | [], _ => []
  | x :: rest, i =>
    if i ∈ axes then removeAxesGo axes rest (i + 1)
    else x :: removeAxesGo axes rest (i + 1)
/-- Positions listed in `axes` removed from `s`. -/
def removeAxes (s axes : List Nat) : List Nat := removeAxesGo axes s 0
/-- `np.sum(a, axis=axes)` for a tuple of distinct valid axes: the
listed axes are removed from the shape and each surviving entry is the
sum of the entries of `a` over all multi-indices that restrict to it. -/
def npSumAxes (a : NDArray) (axes : List Nat) : NDArray :=
  ⟨removeAxes a.shape axes, fun n =>
    ∑ m in (Finset.range a.shape.prod).filter
        (fun m => removeAxes (unflattenIdx a.shape m) axes =
          unflattenIdx (removeAxes a.shape axes) n),
      a.data m⟩
/-- `np.sum(A).reshape([1]*ndim)`: the full reduction of
`MatSum.compute_value` with `axis=None`. -/
def npSumFull (a : NDArray) : NDArray :=
  ⟨List.replicate a.shape.length 1, fun _ => ∑ n in Finset.range a.size, a.data n⟩
/-- `np.split(d, [m], axis=ax)` into two parts at boundary `m` along
`ax` (numpy clips an out-of-range boundary; `ax` must be a valid axis of
`d`, else numpy raises, modelled as `none`). -/
def npSplit (d : NDArray) (ax m : Nat) : Option (NDArray × NDArray) :=
  if ax < d.shape.length then
    let sz := d.shape.getD ax 0
    let m' := min m sz
    let inner := (d.shape.drop (ax + 1)).prod
    some (⟨d.shape.set ax m',
            fun n => d.data (n / (m' * inner) * (sz * inner) + n % (m' * inner))⟩,
          ⟨d.shape.set ax (sz - m'),
            fun n => d.data (n / ((sz - m') * inner) * (sz * inner) + m' * inner
              + n % ((sz - m') * inner))⟩)
  else none
/-- `np.concatenate((a, b), axis=ax)`: ranks must agree, `ax` must be in
range and all non-`ax` dimensions must coincide, else numpy raises
(modelled as `none`). -/
def npConcat (a b : NDArray) (ax : Nat) : Option NDArray :=
  if a.shape.length = b.shape.length ∧ ax < a.shape.length ∧
      a.shape.set ax 0 = b.shape.set ax 0 then
    let cA := a.shape.getD ax 0
    let cB := b.shape.getD ax 0
    let inner := (a.shape.drop (ax + 1)).prod
    some ⟨a.shape.set ax (cA + cB), fun n =>
      let j := n / inner % (cA + cB)
      let outer := n / (inner * (cA + cB))
      let rem := n % inner
      if j < cA then a.data (outer * (cA * inner) + j * inner + rem)
      else b.data (outer * (cB * inner) + (j - cA) * inner + rem)⟩
  else none
/-- An operand node of the expression graph, as `local_grad` observes it:
Python compares graph nodes by reference identity (`parent is self.A`,
and default `==` on `Differentiable` objects is identity), modelled by
the tag `id`; `shape()` and `value()` of the operand are read off its
current value.  (The `Differentiable` base class itself is not under
`src/`; per the spec §4.2 it only stores the operand list and memoises
`value`, which is irrelevant to the properties below.) -/
structure Operand where
  id : Nat
  val : NDArray
/-- `operand.shape()`. -/
def Operand.shape (o : Operand) : List Nat := o.val.shape
/-- `operand.value()`. -/
def Operand.value (o : Operand) : NDArray := o.val
/-- Construction-time failures: a Python `IndexError` from indexing a
too-short shape tuple, or the explicit shape-mismatch `Exception`
carrying both operand shapes. -/
inductive InitErr where
  | indexError : InitErr
  | shapeMismatch : List Nat → List Nat → InitErr
deriving DecidableEq
/-- `class MatMult(Differentiable)`: holds its two operands. -/
structure MatMult where
  A : Operand
  B : Operand
/-- `MatMult.__init__(A, B)` (binary case): evaluates `A.shape()[1]`
(IndexError if A has rank < 2), then `B.shape()[0]` (IndexError if B has
rank 0), and raises naming both shapes when they differ. -/
def MatMult.init (A B : Operand) : Except InitErr MatMult :=
  if 2 ≤ A.shape.length then
    if 1 ≤ B.shape.length then
      if A.shape.getD 1 0 = B.shape.getD 0 0 then .ok ⟨A, B⟩
      else .error (.shapeMismatch A.shape B.shape)
    else .error .indexError
  else .error .indexError
/-- `MatMult.shape()`. -/
def MatMult.shape (node : MatMult) : List Nat :=
  if node.B.shape.length = 1 then [node.A.shape.getD 0 0]
  else [node.A.shape.getD 0 0, node.B.shape.getD 1 0]
/-- `MatMult.compute_value`: `np.dot(A.value(), B.value())`. -/
def MatMult.compute_value (node : MatMult) : Option NDArray :=
  npDot node.A.val node.B.val
/-- `MatMult.local_grad(parent, d_out_d_self)`: dispatch on operand
identity; rank-1 operands use `np.outer`, otherwise `np.dot` with the
transposed sibling; a non-operand parent raises. -/
def MatMult.local_grad (node : MatMult) (parent : Operand) (d : NDArray) :
    Option NDArray :=
  if parent.id = node.A.id then
    if node.B.shape.length = 1 then some (npOuter d node.B.val)
    else npDot d (npT node.B.val)
  else if parent.id = node.B.id then
    if node.A.shape.length = 1 then some (npOuter node.A.val d)
    else npDot (npT node.A.val) d
  else none
/-- `class MatSum(Differentiable)`: one operand and an optional single
axis.  (`__init__` only rejects a non-integer `axis`, which has no
counterpart in this embedding where `axis` is `Option Nat`.) -/
structure MatSum where
  A : Operand
  axis : Option Nat
/-- `MatSum.shape()`: all-ones shape for a full reduction, or the
operand shape with the reduced axis set to 1 (IndexError on an
out-of-range axis, modelled as `none`). -/
def MatSum.shape (node : MatSum) : Option (List Nat) :=
  match node.axis with
  | none => some (List.replicate node.A.shape.length 1)
  | some a =>
    if a < node.A.shape.length then some (node.A.shape.set a 1) else none
/-- `MatSum.compute_value`: full sum reshaped to all-1s rank, or
`np.expand_dims(np.sum(A_val, axis=a), axis=a)`. -/
def MatSum.compute_value (node : MatSum) : Option NDArray :=
  match node.axis with
  | none => some (npSumFull node.A.val)
  | some a =>
    if a < node.A.shape.length then
      some (npExpandDims (npSumAxes node.A.val [a]) a)
    else none
/-- `MatSum.local_grad`: asserts `parent is self.A`, then broadcasts the
incoming gradient against `np.ones(A.shape())`. -/
def MatSum.local_grad (node : MatSum) (parent : Operand) (d : NDArray) :
    Option NDArray :=
  if parent.id = node.A.id then npBinop (· * ·) d (npOnes node.A.shape)
  else none
/-- `class MatAdd(Differentiable)`: two operands. -/
structure MatAdd where
  A : Operand
  B : Operand
/-- `MatAdd.__init__(A, B)` (binary case): raises, naming both shapes,
when the operand shapes are not broadcastable. -/
def MatAdd.init (A B : Operand) : Except InitErr MatAdd :=
  if (broadcast A.shape B.shape).isSome then .ok ⟨A, B⟩
  else .error (.shapeMismatch A.shape B.shape)
/-- `MatAdd.shape()`: the broadcast of the operand shapes. -/
def MatAdd.shape (node : MatAdd) : Option (List Nat) :=
  broadcast node.A.shape node.B.shape
/-- `MatAdd.compute_value`: broadcasting `+`. -/
def MatAdd.compute_value (node : MatAdd) : Option NDArray :=
  npBinop (· + ·) node.A.val node.B.val
/-- The loop body of `MatAdd.axes_for_sum`, on reversed shapes with `ax`
the absolute axis number of the current (rightmost-first) output
dimension: an output axis is collected when the operand's aligned
dimension is missing or equals 1. -/
def axesForSumGo : List Nat → List Nat → Nat → List Nat
  | _, [], _ => []
  | [], _ :: ds, ax => ax :: axesForSumGo [] ds (ax - 1)
  | m :: ms, _ :: ds, ax =>
    if m = 1 then ax :: axesForSumGo ms ds (ax - 1)
    else axesForSumGo ms ds (ax - 1)
/-- `MatAdd.axes_for_sum(mat_shape, d_out_d_self_shape)`: the axes of the
output shape along which `mat_shape` was broadcast, in ascending order. -/
def axes_for_sum (mat_shape d_shape : List Nat) : List Nat :=
  (axesForSumGo mat_shape.reverse d_shape.reverse (d_shape.length - 1)).reverse
/-- `MatAdd.local_grad(parent, d_out_d_self)`: asserts the two operands
are distinct objects; passes `d` through when its (`atleast_1d`) shape
already equals the parent's, otherwise sums over the broadcast axes and
reshapes to the parent's shape.  The parent is not checked for being an
operand — only its `shape()` is used. -/
def MatAdd.local_grad (node : MatAdd) (parent : Operand) (d : NDArray) :
    Option NDArray :=
  if node.A.id = node.B.id then none
  else if atleast1dShape d.shape = parent.shape then some d
  else npReshape (npSumAxes d (axes_for_sum parent.shape d.shape)) parent.shape
/-- `class Transpose(Differentiable)`: one operand, optional axis
permutation; `__init__` performs no validation. -/
structure Transpose where
  A : Operand
  axes : Option (List Nat)
/-- `Transpose.shape()`: reversed operand shape, or
`tuple([shape[ii] for ii in axes])` (IndexError when some listed axis is
out of range, modelled as `none`; the length of `axes` is not checked). -/
def Transpose.shape (node : Transpose) : Option (List Nat) :=
  match node.axes with
  | none => some node.A.shape.reverse
  | some p =>
    if p.all (fun k => k < node.A.shape.length) then some (applyPerm p node.A.shape)
    else none
/-- `Transpose.compute_value`: `np.transpose(A.value(), axes)`. -/
def Transpose.compute_value (node : Transpose) : Option NDArray :=
  npTranspose node.A.val node.axes
/-- `Transpose.local_grad`: `np.transpose(d)` or
`np.transpose(d, axes=np.argsort(axes))`; the parent argument is
ignored entirely. -/
def Transpose.local_grad (node : Transpose) (parent : Operand) (d : NDArray) :
    Option NDArray :=
  match node.axes with
  | none => some (npT d)
  | some p => npTranspose d (some (npArgsort p))
/-- `class Reshape(Differentiable)`: one operand and a stored target
shape; `__init__` performs no validation. -/
structure Reshape where
  A : Operand
  new_shape : List Nat
/-- `Reshape.shape()`: the stored target shape, unconditionally. -/
def Reshape.shape (node : Reshape) : List Nat := node.new_shape
/-- `Reshape.compute_value`: `np.reshape(A.value(), new_shape)`. -/
def Reshape.compute_value (node : Reshape) : Option NDArray :=
  npReshape node.A.val node.new_shape
/-- `Reshape.local_grad`: reshape the incoming gradient back to the
operand's shape; the parent argument is ignored entirely. -/
def Reshape.local_grad (node : Reshape) (parent : Operand) (d : NDArray) :
    Option NDArray :=
  npReshape d node.A.shape
/-- `class Concatenate(Differentiable)`: an axis and two operands;
`__init__` (binary case) performs no shape validation at all. -/
structure Concatenate where
  axis : Nat
  A : Operand
  B : Operand
/-- `Concatenate.__init__(axis, A, B)` (binary case): never fails. -/
def Concatenate.init (axis : Nat) (A B : Operand) : Except InitErr Concatenate :=
  .ok ⟨axis, A, B⟩
/-- `Concatenate.shape()`: operand A's shape with the concatenation axis
replaced by the sum of the two extents (IndexError when the axis is out
of range of either shape, modelled as `none`). -/
def Concatenate.shape (node : Concatenate) : Option (List Nat) :=
  if node.axis < node.A.shape.length ∧ node.axis < node.B.shape.length then
    some (node.A.shape.set node.axis
      (node.A.shape.getD node.axis 0 + node.B.shape.getD node.axis 0))
  else none
/-- `Concatenate.compute_value`:
`np.concatenate((A.value(), B.value()), axis)`. -/
def Concatenate.compute_value (node : Concatenate) : Option NDArray :=
  npConcat node.A.val node.B.val node.axis
/-- `Concatenate.local_grad(parent, d_out_d_self)`: asserts the operands
are distinct objects, splits `d` at `A.shape()[axis]` (IndexError when
the axis is out of range of A's shape), then routes the left part to A,
the right part to B, and raises for any other parent. -/
def Concatenate.local_grad (node : Concatenate) (parent : Operand) (d : NDArray) :
    Option NDArray :=
  if node.A.id = node.B.id then none
  else if node.axis < node.A.shape.length then
    match npSplit d node.axis (node.A.shape.getD node.axis 0) with
    | some (l, r) =>
      if parent.id = node.A.id then some l
      else if parent.id = node.B.id then some r
      else none
    | none => none
  else none
/-- Concrete helpers for the C8 witness. -/
def c8node : Concatenate := ⟨1, ⟨0, npOnes [2, 3]⟩, ⟨1, npOnes [2, 2]⟩⟩
def c8pair : NDArray × NDArray :=
  (npSplit (npOnes [2, 5]) 1 3).getD (npOnes [], npOnes [])
/-- Concrete operands for the C1 witness. -/
def c1A : Operand := ⟨0, ⟨[2, 3], fun n => (n : Int)⟩⟩
def c1B : Operand := ⟨1, ⟨[3], fun n => (n : Int)⟩⟩
/-- Concrete node for the C9 witness. -/
def c9X : NDArray := ⟨[2, 3, 4], fun n => (n : Int)⟩
def c9T : Transpose := ⟨⟨0, c9X⟩, some [2, 0, 1]⟩
def c9Trev : Transpose := ⟨⟨0, c9X⟩, none⟩
def c9R : Reshape := ⟨⟨0, c9X⟩, [6, 4]⟩
def c9Y : NDArray := (npTranspose c9X (some [2, 0, 1])).getD (npOnes [])
def c4mm : MatMult := ⟨⟨0, npOnes [2, 3]⟩, ⟨1, npOnes [3, 2]⟩⟩
def c4ms : MatSum := ⟨⟨0, npOnes [2, 3]⟩, some 1⟩
def c4ma : MatAdd := ⟨⟨0, npOnes [3, 4]⟩, ⟨1, npOnes [4]⟩⟩
def c4tr : Transpose := ⟨⟨0, npOnes [2, 3, 4]⟩, some [2, 0, 1]⟩
def c4re : Reshape := ⟨⟨0, npOnes [2, 3]⟩, [3, 2]⟩
def c4cc : Concatenate := ⟨1, ⟨0, npOnes [2, 3]⟩, ⟨1, npOnes [2, 2]⟩⟩
def c3mm : MatMult := ⟨⟨0, npOnes [2, 3]⟩, ⟨1, npOnes [3, 2]⟩⟩
def c3ms : MatSum := ⟨⟨0, npOnes [2, 3]⟩, some 0⟩
def c3ma : MatAdd := ⟨⟨0, npOnes [3, 4]⟩, ⟨1, npOnes [4]⟩⟩
def c3tr : Transpose := ⟨⟨0, npOnes [2, 3]⟩, none⟩
def c3re : Reshape := ⟨⟨0, npOnes [2, 3]⟩, [6]⟩
def c3cc : Concatenate := ⟨1, ⟨0, npOnes [2, 3]⟩, ⟨1, npOnes [2, 2]⟩⟩
theorem validIdx_length : ∀ {s idx : List Nat}, validIdx s idx → idx.length = s.length
  | [], [], _ => rfl
  | _ :: ss, _ :: is, h => by
      simpa using @validIdx_length ss is h.2
  | [], _ :: _, h => absurd h (fun h => h)
  | _ :: _, [], h => absurd h (fun h => h)
theorem flattenIdx_lt : ∀ {s idx : List Nat}, validIdx s idx → flattenIdx s idx < s.prod
  | [], [], _ => by simp [flattenIdx]
  | s :: ss, i :: is, h => by
      have ih := @flattenIdx_lt ss is h.2
      have h1 : i * ss.prod + flattenIdx ss is < (i + 1) * ss.prod := by
        calc i * ss.prod + flattenIdx ss is < i * ss.prod + ss.prod :=
              Nat.add_lt_add_left ih _
          _ = (i + 1) * ss.prod := by ring
      have h2 : (i + 1) * ss.prod ≤ s * ss.prod :=
        Nat.mul_le_mul_right _ (Nat.succ_le_of_lt h.1)
      simpa [flattenIdx, List.prod_cons] using lt_of_lt_of_le h1 h2
  | [], _ :: _, h => absurd h (fun h => h)
  | _ :: _, [], h => absurd h (fun h => h)
theorem flattenIdx_unflattenIdx : ∀ (s : List Nat) (n : Nat), n < s.prod →
    flattenIdx s (unflattenIdx s n) = n
  | [], n, hn => by
      have : n = 0 := by simpa using Nat.lt_one_iff.mp (by simpa using hn)
      simp [flattenIdx, unflattenIdx, this]
  | s :: ss, n, hn => by
      have hP : 0 < ss.prod := by
        rcases Nat.eq_zero_or_pos ss.prod with h0 | h; · simp [List.prod_cons, h0] at hn
        exact h
      have hmod : n % ss.prod < ss.prod := Nat.mod_lt _ hP
      have ih := flattenIdx_unflattenIdx ss (n % ss.prod) hmod
      simp only [unflattenIdx, flattenIdx, ih]
      rw [Nat.mul_comm]
      exact Nat.div_add_mod n ss.prod
theorem unflattenIdx_flattenIdx : ∀ {s idx : List Nat}, validIdx s idx →
    unflattenIdx s (flattenIdx s idx) = idx
  | [], [], _ => rfl
  | s :: ss, i :: is, h => by
      have hf : flattenIdx ss is < ss.prod := flattenIdx_lt h.2
      have hP : 0 < ss.prod := Nat.pos_of_ne_zero (by omega)
      have hdiv : (i * ss.prod + flattenIdx ss is) / ss.prod = i := by
        rw [Nat.mul_comm i ss.prod, Nat.mul_add_div hP]
        simp [Nat.div_eq_of_lt hf]
      have hmod : (i * ss.prod + flattenIdx ss is) % ss.prod = flattenIdx ss is := by
        rw [Nat.mul_comm i ss.prod, Nat.mul_add_mod]
        exact Nat.mod_eq_of_lt hf
      simp only [flattenIdx, unflattenIdx, hdiv, hmod, unflattenIdx_flattenIdx h.2]
  | [], _ :: _, h => absurd h (fun h => h)
  | _ :: _, [], h => absurd h (fun h => h)
theorem validIdx_unflattenIdx : ∀ (s : List Nat) (n : Nat), n < s.prod →
    validIdx s (unflattenIdx s n)
  | [], n, hn => by
      have : n = 0 := by simpa using Nat.lt_one_iff.mp (by simpa using hn)
      simp [unflattenIdx, this, validIdx]
  | s :: ss, n, hn => by
      have hP : 0 < ss.prod := by
        rcases Nat.eq_zero_or_pos ss.prod with h0 | h; · simp [List.prod_cons, h0] at hn
        exact h
      refine ⟨?_, validIdx_unflattenIdx ss (n % ss.prod) (Nat.mod_lt _ hP)⟩
      have : n < s * ss.prod := by simpa [List.prod_cons] using hn
      exact Nat.div_lt_of_lt_mul (by rwa [Nat.mul_comm s ss.prod] at this)
theorem validIdx_iff_getD : ∀ (s idx : List Nat), validIdx s idx ↔
    idx.length = s.length ∧ ∀ k, k < s.length → idx.getD k 0 < s.getD k 0
  | [], [] => by simp [validIdx]
  | [], i :: is => by simp [validIdx]
  | s :: ss, [] => by simp [validIdx]
  | s :: ss, i :: is => by
      rw [validIdx]
      rw [validIdx_iff_getD ss is]
      constructor
      · rintro ⟨h1, h2, h3⟩
        refine ⟨by simpa using h2, ?_⟩
        intro k hk
        match k with
        | 0 => simpa using h1
        | k + 1 => simpa using h3 k (by simpa using hk)
      · rintro ⟨h1, h2⟩
        refine ⟨by simpa using h2 0 (by simp), by simpa using h1, ?_⟩
        intro k hk
        simpa using h2 (k + 1) (by simpa using hk)
theorem perm_length {p : List Nat} {n : Nat} (hp : p.Perm (List.range n)) :
    p.length = n := by simpa using hp.length_eq
theorem perm_getD_lt {p : List Nat} {n : Nat} (hp : p.Perm (List.range n))
    {k : Nat} (hk : k < n) : p.getD k 0 < n := by
  have hk' : k < p.length := by rw [perm_length hp]; exact hk
  rw [List.getD_eq_getElem p 0 hk']
  have : p[k] ∈ p := List.getElem_mem hk'
  simpa using hp.mem_iff.mp this
theorem perm_nodup {p : List Nat} {n : Nat} (hp : p.Perm (List.range n)) :
    p.Nodup := hp.nodup_iff.mpr (List.nodup_range n)
theorem perm_indexOf_lt {p : List Nat} {n : Nat} (hp : p.Perm (List.range n))
    {m : Nat} (hm : m < n) : p.indexOf m < p.length :=
  List.indexOf_lt_length.mpr (hp.mem_iff.mpr (by simpa using hm))
theorem perm_getD_indexOf {p : List Nat} {n : Nat} (hp : p.Perm (List.range n))
    {m : Nat} (hm : m < n) : p.getD (p.indexOf m) 0 = m := by
  rw [List.getD_eq_getElem p 0 (perm_indexOf_lt hp hm)]
  exact List.getElem_indexOf _
theorem perm_indexOf_getD {p : List Nat} {n : Nat} (hp : p.Perm (List.range n))
    {k : Nat} (hk : k < n) : p.indexOf (p.getD k 0) = k := by
  have hk' : k < p.length := by rw [perm_length hp]; exact hk
  rw [List.getD_eq_getElem p 0 hk']
  exact List.indexOf_getElem (perm_nodup hp) k hk'
theorem npArgsort_length (p : List Nat) : (npArgsort p).length = p.length := by
  simp [npArgsort]
theorem npArgsort_getD {p : List Nat} {m : Nat} (hm : m < p.length) :
    (npArgsort p).getD m 0 = p.indexOf m := by
  have hm' : m < (npArgsort p).length := by rw [npArgsort_length]; exact hm
  rw [List.getD_eq_getElem _ 0 hm']
  simp [npArgsort]
theorem npArgsort_perm {p : List Nat} {n : Nat} (hp : p.Perm (List.range n)) :
    (npArgsort p).Perm (List.range n) := by
  have hlen : (npArgsort p).length = n := by rw [npArgsort_length, perm_length hp]
  have hnodup : (npArgsort p).Nodup := by
    refine List.Nodup.map_on ?_ (List.nodup_range p.length)
    intro x hx y hy hxy
    have hx' : x < n := by rw [← perm_length hp]; simpa using hx
    have hy' : y < n := by rw [← perm_length hp]; simpa using hy
    have h1 : p.getD (p.indexOf x) 0 = x := perm_getD_indexOf hp hx'
    have h2 : p.getD (p.indexOf y) 0 = y := perm_getD_indexOf hp hy'
    rw [hxy, h2] at h1
    exact h1.symm
  have hsub : npArgsort p ⊆ List.range n := by
    intro x hx
    simp only [npArgsort, List.mem_map, List.mem_range] at hx
    obtain ⟨m, hm, rfl⟩ := hx
    have hm' : m < n := by rw [← perm_length hp]; exact hm
    have h1 := perm_indexOf_lt hp hm'
    have h2 := perm_length hp
    simp only [List.mem_range]
    omega
  have hsubperm := List.subperm_of_subset hnodup hsub
  exact hsubperm.perm_of_length_le (by simp [hlen])
theorem applyPerm_length (p l : List Nat) : (applyPerm p l).length = p.length := by
  simp [applyPerm]
theorem applyPerm_getD {p l : List Nat} {k : Nat} (hk : k < p.length) :
    (applyPerm p l).getD k 0 = l.getD (p.getD k 0) 0 := by
  have hk' : k < (applyPerm p l).length := by rw [applyPerm_length]; exact hk
  rw [List.getD_eq_getElem _ 0 hk', List.getD_eq_getElem p 0 hk]
  simp [applyPerm]
theorem applyPerm_argsort_applyPerm {p : List Nat} {n : Nat}
    (hp : p.Perm (List.range n)) {l : List Nat} (hl : l.length = n) :
    applyPerm (npArgsort p) (applyPerm p l) = l := by
  have hplen := perm_length hp
  apply List.ext_getElem
  · rw [applyPerm_length, npArgsort_length, hplen, hl]
  · intro k h1 h2
    have hk : k < n := by rwa [hl] at h2
    have hk1 : k < (npArgsort p).length := by rw [npArgsort_length, hplen]; exact hk
    rw [← List.getD_eq_getElem _ 0 h1, ← List.getD_eq_getElem l 0 h2]
    rw [applyPerm_getD hk1, npArgsort_getD (by rw [hplen]; exact hk)]
    rw [applyPerm_getD (perm_indexOf_lt hp hk), perm_getD_indexOf hp hk]
theorem npArgsort_npArgsort {p : List Nat} {n : Nat} (hp : p.Perm (List.range n)) :
    npArgsort (npArgsort p) = p := by
  have hplen := perm_length hp
  have haperm := npArgsort_perm hp
  have halen : (npArgsort p).length = n := by rw [npArgsort_length, hplen]
  apply List.ext_getElem
  · rw [npArgsort_length, halen, hplen]
  · intro m h1 h2
    have hm : m < n := by rwa [hplen] at h2
    rw [← List.getD_eq_getElem _ 0 h1, ← List.getD_eq_getElem p 0 h2]
    rw [npArgsort_getD (by rw [halen]; exact hm)]
    have hgd : p.getD m 0 < n := perm_getD_lt hp hm
    have hgd' : p.getD m 0 < (npArgsort p).length := by rw [halen]; exact hgd
    have : (npArgsort p)[p.getD m 0] = m := by
      rw [← List.getD_eq_getElem _ 0 hgd', npArgsort_getD (by rw [hplen]; exact hgd)]
      exact perm_indexOf_getD hp hm
    calc (npArgsort p).indexOf m = (npArgsort p).indexOf (npArgsort p)[p.getD m 0] := by rw [this]
      _ = p.getD m 0 := List.indexOf_getElem (perm_nodup haperm) _ hgd'
theorem map_getD_range (s : List Nat) :
    (List.range s.length).map (fun k => s.getD k 0) = s := by
  apply List.ext_getElem
  · simp
  · intro k h1 h2
    simp only [List.getElem_map, List.getElem_range]
    exact List.getD_eq_getElem s 0 h2
theorem applyPerm_perm {p : List Nat} {n : Nat} (hp : p.Perm (List.range n))
    {l : List Nat} (hl : l.length = n) : (applyPerm p l).Perm l := by
  have : applyPerm p l = p.map (fun k => l.getD k 0) := rfl
  rw [this]
  have h2 := hp.map (fun k => l.getD k 0)
  have h3 : (List.range n).map (fun k => l.getD k 0) = l := by
    rw [← hl]; exact map_getD_range l
  rwa [h3] at h2
theorem prod_applyPerm {p : List Nat} {n : Nat} (hp : p.Perm (List.range n))
    {l : List Nat} (hl : l.length = n) : (applyPerm p l).prod = l.prod :=
  (applyPerm_perm hp hl).prod_eq
theorem validIdx_applyPerm {p : List Nat} {n : Nat} (hp : p.Perm (List.range n))
    {s idx : List Nat} (hs : s.length = n) (h : validIdx s idx) :
    validIdx (applyPerm p s) (applyPerm p idx) := by
  have hplen := perm_length hp
  obtain ⟨hlen, hbound⟩ := (validIdx_iff_getD s idx).mp h
  rw [validIdx_iff_getD]
  constructor
  · rw [applyPerm_length, applyPerm_length]
  · intro k hk
    have hk' : k < p.length := by rwa [applyPerm_length] at hk
    rw [applyPerm_getD hk', applyPerm_getD hk']
    exact hbound _ (by rw [hs]; exact perm_getD_lt hp (by rwa [hplen] at hk'))
theorem validIdx_reverse {s idx : List Nat} (h : validIdx s idx) :
    validIdx s.reverse idx.reverse := by
  obtain ⟨hlen, hbound⟩ := (validIdx_iff_getD s idx).mp h
  rw [validIdx_iff_getD]
  refine ⟨by simpa using hlen, ?_⟩
  intro k hk
  have hk' : k < s.length := by simpa using hk
  have hks : s.length - 1 - k < s.length := by omega
  have hki : s.length - 1 - k < idx.length := by omega
  rw [List.getD_eq_getElem s.reverse 0 (by simpa using hk'),
    List.getD_eq_getElem idx.reverse 0 (by simp; omega)]
  rw [List.getElem_reverse, List.getElem_reverse]
  rw [← List.getD_eq_getElem s 0, ← List.getD_eq_getElem idx 0]
  · rw [hlen]
    exact hbound _ (by omega)
theorem matMult_init_ok {A B : Operand} {node : MatMult}
    (h : MatMult.init A B = Except.ok node) :
    node = ⟨A, B⟩ ∧ 2 ≤ A.shape.length ∧ 1 ≤ B.shape.length ∧
      A.shape.getD 1 0 = B.shape.getD 0 0 := by
  unfold MatMult.init at h
  split at h
  · split at h
    · split at h
      · cases h; exact ⟨rfl, by assumption, by assumption, by assumption⟩
      · cases h
    · cases h
  · cases h
theorem MatMult.init_ok_iff (A B : Operand) :
    (∃ node, MatMult.init A B = Except.ok node) ↔
      (2 ≤ A.shape.length ∧ 1 ≤ B.shape.length ∧
        A.shape.getD 1 0 = B.shape.getD 0 0) := by
  constructor
  · rintro ⟨node, h⟩
    exact (matMult_init_ok h).2
  · rintro ⟨h1, h2, h3⟩
    refine ⟨⟨A, B⟩, ?_⟩
    unfold MatMult.init
    rw [if_pos h1, if_pos h2, if_pos h3]
theorem matAdd_init_ok {A B : Operand} {node : MatAdd}
    (h : MatAdd.init A B = Except.ok node) :
    node = ⟨A, B⟩ ∧ (broadcast A.shape B.shape).isSome := by
  unfold MatAdd.init at h
  split at h
  · cases h; exact ⟨rfl, by assumption⟩
  · cases h
/-- C7.  Corrected: the source checks `A.shape()[1]` (the second axis)
against `B.shape()[0]`, which is A's *last* dimension only for the
rank-2 operands the operation is designed for; construction also needs
`A.shape()[1]` and `B.shape()[0]` to exist at all.  Amended claim:
`MatMult(A, B)` construction succeeds iff A's shape has at least two
dimensions, B's at least one, and A's second dimension (`A.shape()[1]`)
equals B's first; on an inner-dimension mismatch it fails with a
shape-mismatch error naming both operand shapes; in particular A of
shape (2,3) with B of shape (4,5) fails that way. -/
theorem C7_matmult_inner_dim_check (A B : Operand) :
    ((∃ node, MatMult.init A B = Except.ok node) ↔
      (2 ≤ A.shape.length ∧ 1 ≤ B.shape.length ∧
        A.shape.getD 1 0 = B.shape.getD 0 0)) ∧
    (2 ≤ A.shape.length → 1 ≤ B.shape.length →
      A.shape.getD 1 0 ≠ B.shape.getD 0 0 →
      MatMult.init A B = Except.error (InitErr.shapeMismatch A.shape B.shape)) ∧
    (MatMult.init ⟨0, npOnes [2, 3]⟩ ⟨1, npOnes [4, 5]⟩ =
      Except.error (InitErr.shapeMismatch [2, 3] [4, 5])) := by
  refine ⟨MatMult.init_ok_iff A B, ?_, rfl⟩
  intro h1 h2 h3
  unfold MatMult.init
  rw [if_pos h1, if_pos h2, if_neg h3]
/-- C7 counterexample: with A of shape (2,3,4) and B of shape (4,5),
A's last dimension equals B's first dimension, yet construction fails —
refuting the claimed "succeeds iff A's last dimension equals B's first
dimension". -/
theorem C7_counterexample :
    (⟨0, npOnes [2, 3, 4]⟩ : Operand).shape.getLast? = some 4 ∧
    (⟨1, npOnes [4, 5]⟩ : Operand).shape.getD 0 0 = 4 ∧
    MatMult.init ⟨0, npOnes [2, 3, 4]⟩ ⟨1, npOnes [4, 5]⟩ =
      Except.error (InitErr.shapeMismatch [2, 3, 4] [4, 5]) :=
  ⟨by decide, by decide, rfl⟩
theorem C7_witness :
    (2 ≤ (⟨0, npOnes [2, 3]⟩ : Operand).shape.length) ∧
    (1 ≤ (⟨1, npOnes [4, 5]⟩ : Operand).shape.length) ∧
    ((⟨0, npOnes [2, 3]⟩ : Operand).shape.getD 1 0 ≠
      (⟨1, npOnes [4, 5]⟩ : Operand).shape.getD 0 0) ∧
    MatMult.init ⟨0, npOnes [2, 3]⟩ ⟨1, npOnes [4, 5]⟩ =
      Except.error (InitErr.shapeMismatch [2, 3] [4, 5]) :=
  ⟨by decide, by decide, by decide,
    (C7_matmult_inner_dim_check ⟨0, npOnes [2, 3]⟩ ⟨1, npOnes [4, 5]⟩).2.1
      (by decide) (by decide) (by decide)⟩
/-- C5.  Corrected: `MatMult` and `MatAdd` do validate operand shapes
eagerly at construction and fail before any value exists, but
`Concatenate.__init__` performs no shape validation whatsoever, so a
Concatenate node whose operand shapes disagree on a non-concatenation
dimension *is* created (the failure would only surface when
`np.concatenate` is evaluated).  Amended claim: MatMult construction
fails on inner-dimension mismatch (or missing dimensions), MatAdd
construction fails on non-broadcastable operands, and Concatenate
construction always succeeds. -/
theorem C5_eager_shape_validation :
    (∀ A B : Operand,
      ¬(2 ≤ A.shape.length ∧ 1 ≤ B.shape.length ∧
          A.shape.getD 1 0 = B.shape.getD 0 0) →
      ∃ e, MatMult.init A B = Except.error e) ∧
    (∀ A B : Operand, broadcast A.shape B.shape = none →
      MatAdd.init A B = Except.error (InitErr.shapeMismatch A.shape B.shape)) ∧
    (∀ (ax : Nat) (A B : Operand),
      Concatenate.init ax A B = Except.ok ⟨ax, A, B⟩) := by
  refine ⟨?_, ?_, fun ax A B => rfl⟩
  · intro A B h
    match hi : MatMult.init A B with
    | .error e => exact ⟨e, rfl⟩
    | .ok node => exact absurd ((MatMult.init_ok_iff A B).mp ⟨node, hi⟩) h
  · intro A B h
    simp [MatAdd.init, h]
/-- C5 counterexample: Concatenate along axis 1 of operands shaped (2,3)
and (5,4) — the shapes disagree on dimension 0, the only
non-concatenation dimension — still constructs a node, refuting
"construction fails ... for Concatenate; no such node is ever
created". -/
theorem C5_counterexample :
    Concatenate.init 1 ⟨0, npOnes [2, 3]⟩ ⟨1, npOnes [5, 4]⟩ =
      Except.ok ⟨1, ⟨0, npOnes [2, 3]⟩, ⟨1, npOnes [5, 4]⟩⟩ ∧
    (⟨0, npOnes [2, 3]⟩ : Operand).shape.getD 0 0 ≠
      (⟨1, npOnes [5, 4]⟩ : Operand).shape.getD 0 0 :=
  ⟨rfl, by decide⟩
theorem C5_witness :
    (¬(2 ≤ (⟨0, npOnes [2, 3]⟩ : Operand).shape.length ∧
        1 ≤ (⟨1, npOnes [4, 5]⟩ : Operand).shape.length ∧
        (⟨0, npOnes [2, 3]⟩ : Operand).shape.getD 1 0 =
          (⟨1, npOnes [4, 5]⟩ : Operand).shape.getD 0 0)) ∧
    (broadcast [2, 3] [2, 4] = none) ∧
    (∃ e, MatMult.init ⟨0, npOnes [2, 3]⟩ ⟨1, npOnes [4, 5]⟩ = Except.error e) ∧
    (MatAdd.init ⟨0, npOnes [2, 3]⟩ ⟨1, npOnes [2, 4]⟩ =
      Except.error (InitErr.shapeMismatch [2, 3] [2, 4])) ∧
    (Concatenate.init 0 ⟨0, npOnes [2]⟩ ⟨1, npOnes [3]⟩ =
      Except.ok ⟨0, ⟨0, npOnes [2]⟩, ⟨1, npOnes [3]⟩⟩) :=
  ⟨by decide, by decide,
    C5_eager_shape_validation.1 ⟨0, npOnes [2, 3]⟩ ⟨1, npOnes [4, 5]⟩ (by decide),
    C5_eager_shape_validation.2.1 ⟨0, npOnes [2, 3]⟩ ⟨1, npOnes [2, 4]⟩ (by decide),
    C5_eager_shape_validation.2.2 0 ⟨0, npOnes [2]⟩ ⟨1, npOnes [3]⟩⟩
/-- C10.  Confirmed: `MatMult.__init__` reads `A.shape()[1]`, so every
successfully constructed node has an operand A of rank at least 2; the
outer-product branch of `local_grad` for parent B (guarded by
`len(A.shape()) == 1`) is therefore unreachable, and `local_grad(B, d)`
(with B a distinct object from A, as the dispatch tests A first) always
takes the `np.dot(A.T, d)` branch. -/
theorem C10_rank1_branch_unreachable (A B : Operand) (node : MatMult)
    (hinit : MatMult.init A B = Except.ok node) :
    2 ≤ node.A.shape.length ∧ node.A.shape.length ≠ 1 ∧
    (node.A.id ≠ node.B.id →
      ∀ d, MatMult.local_grad node node.B d = npDot (npT node.A.val) d) := by
  obtain ⟨rfl, h2, _, _⟩ := matMult_init_ok hinit
  refine ⟨h2, show A.shape.length ≠ 1 by omega, ?_⟩
  intro hid d
  have hne : B.id ≠ A.id := fun h => hid h.symm
  show (if B.id = A.id then _ else if B.id = B.id then
    if A.shape.length = 1 then _ else npDot (npT A.val) d else none) = _
  rw [if_neg hne, if_pos rfl, if_neg (show ¬A.shape.length = 1 by omega)]
theorem C10_witness :
    (MatMult.init ⟨0, npOnes [2, 2]⟩ ⟨1, npOnes [2]⟩ =
      Except.ok ⟨⟨0, npOnes [2, 2]⟩, ⟨1, npOnes [2]⟩⟩) ∧
    (2 ≤ (⟨⟨0, npOnes [2, 2]⟩, ⟨1, npOnes [2]⟩⟩ : MatMult).A.shape.length ∧
      (⟨⟨0, npOnes [2, 2]⟩, ⟨1, npOnes [2]⟩⟩ : MatMult).A.shape.length ≠ 1 ∧
      ((⟨⟨0, npOnes [2, 2]⟩, ⟨1, npOnes [2]⟩⟩ : MatMult).A.id ≠
          (⟨⟨0, npOnes [2, 2]⟩, ⟨1, npOnes [2]⟩⟩ : MatMult).B.id →
        ∀ d, MatMult.local_grad ⟨⟨0, npOnes [2, 2]⟩, ⟨1, npOnes [2]⟩⟩
            (⟨⟨0, npOnes [2, 2]⟩, ⟨1, npOnes [2]⟩⟩ : MatMult).B d =
          npDot (npT (⟨⟨0, npOnes [2, 2]⟩, ⟨1, npOnes [2]⟩⟩ : MatMult).A.val) d)) :=
  ⟨rfl, C10_rank1_branch_unreachable ⟨0, npOnes [2, 2]⟩ ⟨1, npOnes [2]⟩ _ rfl⟩
/-- C6.  Corrected: only `MatMult`, `MatSum` and `Concatenate` fail when
`local_grad` is called with a parent that is not one of the node's
operands; `Transpose` and `Reshape` ignore the parent argument entirely,
and `MatAdd` uses only the parent's shape — none of these three signals
an error for a non-operand parent.  Amended claim: MatMult, MatSum and
Concatenate fail on a non-operand parent; MatAdd, Transpose and Reshape
do not validate the parent. -/
theorem C6_invalid_parent :
    (∀ (node : MatMult) (parent : Operand) (d : NDArray),
      parent.id ≠ node.A.id → parent.id ≠ node.B.id →
      MatMult.local_grad node parent d = none) ∧
    (∀ (node : MatSum) (parent : Operand) (d : NDArray),
      parent.id ≠ node.A.id → MatSum.local_grad node parent d = none) ∧
    (∀ (node : Concatenate) (parent : Operand) (d : NDArray),
      parent.id ≠ node.A.id → parent.id ≠ node.B.id →
      Concatenate.local_grad node parent d = none) ∧
    (∀ (node : Transpose) (parent : Operand) (d : NDArray), node.axes = none →
      Transpose.local_grad node parent d = some (npT d)) ∧
    (∀ (node : Reshape) (parent : Operand) (d : NDArray),
      Reshape.local_grad node parent d = npReshape d node.A.shape) ∧
    (∀ (node : MatAdd) (parent : Operand) (d : NDArray),
      node.A.id ≠ node.B.id → atleast1dShape d.shape = parent.shape →
      MatAdd.local_grad node parent d = some d) := by
  refine ⟨?_, ?_, ?_, ?_, fun node parent d => rfl, ?_⟩
  · intro node parent d h1 h2
    simp [MatMult.local_grad, h1, h2]
  · intro node parent d h1
    simp [MatSum.local_grad, h1]
  · intro node parent d h1 h2
    unfold Concatenate.local_grad
    split
    · rfl
    · split
      · split
        · simp [h1, h2]
        · rfl
      · rfl
  · intro node parent d h
    simp [Transpose.local_grad, h]
  · intro node parent d h1 h2
    simp [MatAdd.local_grad, h1, h2]
/-- C6 counterexample: a `Transpose` node with (sole) operand tagged 0,
asked for the gradient of a parent tagged 99 — not an operand — returns
the transposed gradient successfully instead of failing. -/
theorem C6_counterexample :
    (⟨99, npOnes [1]⟩ : Operand).id ≠
      (⟨⟨0, npOnes [2, 3]⟩, none⟩ : Transpose).A.id ∧
    Transpose.local_grad ⟨⟨0, npOnes [2, 3]⟩, none⟩ ⟨99, npOnes [1]⟩
        (npOnes [3, 2]) = some (npT (npOnes [3, 2])) :=
  ⟨by decide, rfl⟩
theorem C6_witness :
    ((⟨99, npOnes [1]⟩ : Operand).id ≠ (⟨5, npOnes [2]⟩ : Operand).id) ∧
    ((⟨99, npOnes [1]⟩ : Operand).id ≠ (⟨6, npOnes [2]⟩ : Operand).id) ∧
    (MatMult.local_grad ⟨⟨5, npOnes [2, 2]⟩, ⟨6, npOnes [2]⟩⟩ ⟨99, npOnes [1]⟩
        (npOnes [2]) = none) ∧
    (MatSum.local_grad ⟨⟨5, npOnes [2]⟩, none⟩ ⟨99, npOnes [1]⟩
        (npOnes [1]) = none) ∧
    (Concatenate.local_grad ⟨0, ⟨5, npOnes [2]⟩, ⟨6, npOnes [2]⟩⟩ ⟨99, npOnes [1]⟩
        (npOnes [4]) = none) ∧
    (Transpose.local_grad ⟨⟨5, npOnes [2]⟩, none⟩ ⟨99, npOnes [1]⟩
        (npOnes [2]) = some (npT (npOnes [2]))) ∧
    (Reshape.local_grad ⟨⟨5, npOnes [2]⟩, [1, 2]⟩ ⟨99, npOnes [1]⟩
        (npOnes [1, 2]) = npReshape (npOnes [1, 2]) [2]) ∧
    (MatAdd.local_grad ⟨⟨5, npOnes [2]⟩, ⟨6, npOnes [2]⟩⟩ ⟨99, npOnes [2]⟩
        (npOnes [2]) = some (npOnes [2])) :=
  ⟨by decide, by decide,
    C6_invalid_parent.1 _ ⟨99, npOnes [1]⟩ _ (by decide) (by decide),
    C6_invalid_parent.2.1 _ ⟨99, npOnes [1]⟩ _ (by decide),
    C6_invalid_parent.2.2.1 _ ⟨99, npOnes [1]⟩ _ (by decide) (by decide),
    C6_invalid_parent.2.2.2.1 _ ⟨99, npOnes [1]⟩ _ rfl,
    C6_invalid_parent.2.2.2.2.1 _ ⟨99, npOnes [1]⟩ _,
    C6_invalid_parent.2.2.2.2.2 _ ⟨99, npOnes [2]⟩ _ (by decide) (by decide)⟩
theorem idx2_div {i j k : Nat} (hj : j < k) : (i * k + j) / k = i := by
  have k0 : 0 < k := Nat.pos_of_ne_zero (by omega)
  rw [Nat.mul_comm i k, Nat.mul_add_div k0]
  simp [Nat.div_eq_of_lt hj]
theorem idx2_mod {i j k : Nat} (hj : j < k) : (i * k + j) % k = j := by
  rw [Nat.mul_comm i k, Nat.mul_add_mod]
  exact Nat.mod_eq_of_lt hj
theorem flattenIdx_pair (s0 s1 i j : Nat) : flattenIdx [s0, s1] [i, j] = i * s1 + j := by
  simp [flattenIdx]
theorem flattenIdx_single (s0 i : Nat) : flattenIdx [s0] [i] = i := by
  simp [flattenIdx]
theorem NDArray.get_pair {a : NDArray} {s0 s1 : Nat} (hs : a.shape = [s0, s1])
    (i j : Nat) : a.get [i, j] = a.data (i * s1 + j) := by
  unfold NDArray.get
  rw [hs, flattenIdx_pair]
theorem NDArray.get_single {a : NDArray} {s0 : Nat} (hs : a.shape = [s0])
    (i : Nat) : a.get [i] = a.data i := by
  unfold NDArray.get
  rw [hs, flattenIdx_single]
theorem npT_data2 {a : NDArray} {s0 s1 : Nat} (hs : a.shape = [s0, s1])
    {t j : Nat} (ht : t < s1) (hj : j < s0) :
    (npT a).data (t * s0 + j) = a.data (j * s1 + t) := by
  simp only [npT]
  rw [hs]
  have hrev : List.reverse [s0, s1] = [s1, s0] := rfl
  rw [hrev]
  have hun : unflattenIdx [s1, s0] (t * s0 + j) = [t, j] := by
    simp [unflattenIdx, idx2_div hj, idx2_mod hj]
  rw [hun]
  have : List.reverse [t, j] = [j, t] := rfl
  rw [this, flattenIdx_pair]
theorem npDot_mm {a b : NDArray} {m k p : Nat} (ha : a.shape = [m, k])
    (hb : b.shape = [k, p]) :
    npDot a b = some ⟨[m, p], fun n =>
      ∑ j in Finset.range k, a.data ((n / p) * k + j) * b.data (j * p + n % p)⟩ := by
  unfold npDot
  rw [ha, hb]
  simp
theorem npDot_mv {a b : NDArray} {m k : Nat} (ha : a.shape = [m, k])
    (hb : b.shape = [k]) :
    npDot a b = some ⟨[m], fun n =>
      ∑ j in Finset.range k, a.data (n * k + j) * b.data j⟩ := by
  unfold npDot
  rw [ha, hb]
  simp
/-- C8.  Confirmed: for distinct operands and a valid concatenation
axis, `local_grad` splits the incoming gradient at A's extent on the
axis and routes the left part to A, the right part to B; in the
concrete (2,3) ++ (2,2), axis-1 scenario with an all-ones incoming
gradient of shape (2,5) the two parts are all-ones of shapes (2,3) and
(2,2); and `local_grad` fails when the operands are the same object. -/
theorem C8_concatenate_split (node : Concatenate) (d : NDArray)
    (hid : node.A.id ≠ node.B.id) (hax : node.axis < node.A.shape.length) :
    (∀ l r, npSplit d node.axis (node.A.shape.getD node.axis 0) = some (l, r) →
      Concatenate.local_grad node node.A d = some l ∧
      Concatenate.local_grad node node.B d = some r) ∧
    (∃ g, Concatenate.local_grad ⟨1, ⟨0, npOnes [2, 3]⟩, ⟨1, npOnes [2, 2]⟩⟩
        ⟨0, npOnes [2, 3]⟩ (npOnes [2, 5]) = some g ∧ aeq g (npOnes [2, 3])) ∧
    (∃ g, Concatenate.local_grad ⟨1, ⟨0, npOnes [2, 3]⟩, ⟨1, npOnes [2, 2]⟩⟩
        ⟨1, npOnes [2, 2]⟩ (npOnes [2, 5]) = some g ∧ aeq g (npOnes [2, 2])) ∧
    (∀ (n2 : Concatenate) (parent : Operand) (d2 : NDArray),
      n2.A.id = n2.B.id → Concatenate.local_grad n2 parent d2 = none) := by
  refine ⟨?_, ⟨_, rfl, by decide⟩, ⟨_, rfl, by decide⟩, ?_⟩
  · intro l r hs
    have hid' : node.B.id ≠ node.A.id := fun h => hid h.symm
    constructor
    · unfold Concatenate.local_grad
      rw [if_neg hid, if_pos hax, hs]
      simp
    · unfold Concatenate.local_grad
      rw [if_neg hid, if_pos hax, hs]
      simp [hid']
  · intro n2 parent d2 h
    simp [Concatenate.local_grad, h]
theorem C8_witness :
    (c8node.A.id ≠ c8node.B.id) ∧ (c8node.axis < c8node.A.shape.length) ∧
    (npSplit (npOnes [2, 5]) c8node.axis (c8node.A.shape.getD c8node.axis 0) =
      some (c8pair.1, c8pair.2)) ∧
    (Concatenate.local_grad c8node c8node.A (npOnes [2, 5]) = some c8pair.1 ∧
      Concatenate.local_grad c8node c8node.B (npOnes [2, 5]) = some c8pair.2) :=
  ⟨by decide, by decide, rfl,
    (C8_concatenate_split c8node (npOnes [2, 5]) (by decide) (by decide)).1
      c8pair.1 c8pair.2 rfl⟩
/-- C1.  Confirmed: for a successfully constructed `MatMult` node with
distinct operands, `local_grad(A, d)` is the matrix product `d · Bᵀ`
when B is a (rank-2) matrix — stated entrywise:
`g[i,j] = Σ_t d[i,t]·B[j,t]` — and the outer product of `d` with B's
value when B has rank 1; `local_grad(B, d)` is `Aᵀ · d` — entrywise
`g[t,j] = Σ_i A[i,t]·d[i,j]` (or `g[t] = Σ_i A[i,t]·d[i]` for rank-1
B) — when A has rank at least 2, which construction guarantees; the
rank-1-A outer-product clause holds vacuously since a rank-1 A cannot
pass construction. -/
theorem C1_matmult_grad_formulas (A B : Operand) (node : MatMult)
    (hinit : MatMult.init A B = Except.ok node) (hid : A.id ≠ B.id)
    (d : NDArray) (hd : d.shape = node.shape) :
    (∀ m k p, A.val.shape = [m, k] → B.val.shape = [k, p] →
      ∃ g, MatMult.local_grad node A d = some g ∧ g.shape = [m, k] ∧
        ∀ i j, i < m → j < k →
          g.get [i, j] = ∑ t in Finset.range p, d.get [i, t] * B.val.get [j, t]) ∧
    (∀ k, B.val.shape = [k] →
      ∃ g, MatMult.local_grad node A d = some g ∧ g.shape = [d.size, k] ∧
        ∀ i j, i < d.size → j < k → g.get [i, j] = d.data i * B.val.data j) ∧
    (∀ m k p, A.val.shape = [m, k] → B.val.shape = [k, p] →
      ∃ g, MatMult.local_grad node B d = some g ∧ g.shape = [k, p] ∧
        ∀ t j, t < k → j < p →
          g.get [t, j] = ∑ i in Finset.range m, A.val.get [i, t] * d.get [i, j]) ∧
    (∀ m k, A.val.shape = [m, k] → B.val.shape = [k] →
      ∃ g, MatMult.local_grad node B d = some g ∧ g.shape = [k] ∧
        ∀ t, t < k →
          g.get [t] = ∑ i in Finset.range m, A.val.get [i, t] * d.get [i]) ∧
    (A.val.shape.length = 1 →
      MatMult.local_grad node B d = some (npOuter A.val d)) := by
  obtain ⟨rfl, hr2, hr1, hinner⟩ := matMult_init_ok hinit
  have hid' : B.id ≠ A.id := fun h => hid h.symm
  refine ⟨?_, ?_, ?_, ?_, ?_⟩
  · intro m k p hA hB
    have hd2 : d.shape = [m, p] := by
      rw [hd]; simp [MatMult.shape, Operand.shape, hA, hB]
    have hstep : MatMult.local_grad ⟨A, B⟩ A d = npDot d (npT B.val) := by
      unfold MatMult.local_grad
      rw [if_pos rfl, if_neg (show ¬(B.shape.length = 1) by simp [Operand.shape, hB])]
    have hT : (npT B.val).shape = [p, k] := by simp [npT, hB]
    rw [hstep, npDot_mm hd2 hT]
    refine ⟨_, rfl, rfl, ?_⟩
    intro i j hi hj
    rw [NDArray.get_pair rfl i j]
    show (∑ t in Finset.range p,
        d.data ((i * k + j) / k * p + t) * (npT B.val).data (t * k + (i * k + j) % k)) = _
    rw [idx2_div hj, idx2_mod hj]
    refine Finset.sum_congr rfl ?_
    intro t ht
    rw [NDArray.get_pair hd2, NDArray.get_pair hB,
      npT_data2 hB (Finset.mem_range.mp ht) hj]
  · intro k hB
    have hstep : MatMult.local_grad ⟨A, B⟩ A d = some (npOuter d B.val) := by
      unfold MatMult.local_grad
      rw [if_pos rfl, if_pos (show B.shape.length = 1 by simp [Operand.shape, hB])]
    have hbs : B.val.size = k := by simp [NDArray.size, hB]
    rw [hstep]
    refine ⟨_, rfl, by simp [npOuter, hbs], ?_⟩
    intro i j hi hj
    rw [NDArray.get_pair rfl i j]
    show d.data ((i * B.val.size + j) / B.val.size) *
        B.val.data ((i * B.val.size + j) % B.val.size) = _
    rw [hbs, idx2_div hj, idx2_mod hj]
  · intro m k p hA hB
    have hd2 : d.shape = [m, p] := by
      rw [hd]; simp [MatMult.shape, Operand.shape, hA, hB]
    have hstep : MatMult.local_grad ⟨A, B⟩ B d = npDot (npT A.val) d := by
      unfold MatMult.local_grad
      rw [if_neg hid', if_pos rfl,
        if_neg (show ¬(A.shape.length = 1) by simp [Operand.shape, hA])]
    have hT : (npT A.val).shape = [k, m] := by simp [npT, hA]
    rw [hstep, npDot_mm hT hd2]
    refine ⟨_, rfl, rfl, ?_⟩
    intro t j ht hj
    rw [NDArray.get_pair rfl t j]
    show (∑ i in Finset.range m,
        (npT A.val).data ((t * p + j) / p * m + i) * d.data (i * p + (t * p + j) % p)) = _
    rw [idx2_div hj, idx2_mod hj]
    refine Finset.sum_congr rfl ?_
    intro i hi
    rw [NDArray.get_pair hA, NDArray.get_pair hd2,
      npT_data2 hA ht (Finset.mem_range.mp hi)]
  · intro m k hA hB
    have hd2 : d.shape = [m] := by
      rw [hd]; simp [MatMult.shape, Operand.shape, hA, hB]
    have hstep : MatMult.local_grad ⟨A, B⟩ B d = npDot (npT A.val) d := by
      unfold MatMult.local_grad
      rw [if_neg hid', if_pos rfl,
        if_neg (show ¬(A.shape.length = 1) by simp [Operand.shape, hA])]
    have hT : (npT A.val).shape = [k, m] := by simp [npT, hA]
    rw [hstep, npDot_mv hT hd2]
    refine ⟨_, rfl, rfl, ?_⟩
    intro t ht
    rw [NDArray.get_single rfl t]
    show (∑ i in Finset.range m, (npT A.val).data (t * m + i) * d.data i) = _
    refine Finset.sum_congr rfl ?_
    intro i hi
    rw [NDArray.get_pair hA, NDArray.get_single hd2,
      npT_data2 hA ht (Finset.mem_range.mp hi)]
  · intro h1
    exact absurd h1 (show A.val.shape.length ≠ 1 by
      have : 2 ≤ A.val.shape.length := hr2
      omega)
theorem C1_witness :
    (MatMult.init c1A c1B = Except.ok ⟨c1A, c1B⟩) ∧ (c1A.id ≠ c1B.id) ∧
    ((npOnes [2]).shape = MatMult.shape ⟨c1A, c1B⟩) ∧
    (∃ g, MatMult.local_grad ⟨c1A, c1B⟩ c1A (npOnes [2]) = some g ∧
      g.shape = [(npOnes [2]).size, 3] ∧
      ∀ i j, i < (npOnes [2]).size → j < 3 →
        g.get [i, j] = (npOnes [2]).data i * c1B.val.data j) :=
  ⟨rfl, by decide, rfl,
    (C1_matmult_grad_formulas c1A c1B ⟨c1A, c1B⟩ rfl (by decide)
      (npOnes [2]) rfl).2.1 3 rfl⟩
theorem npT_npT (X : NDArray) : aeq (npT (npT X)) X := by
  constructor
  · simp [npT]
  · intro n hn
    have hn' : n < X.shape.prod := by
      simpa [npT, NDArray.size] using hn
    have hvalid : validIdx X.shape (unflattenIdx X.shape n) :=
      validIdx_unflattenIdx _ _ hn'
    have hvrev : validIdx X.shape.reverse (unflattenIdx X.shape n).reverse :=
      validIdx_reverse hvalid
    simp only [npT, List.reverse_reverse]
    rw [unflattenIdx_flattenIdx hvrev, List.reverse_reverse,
      flattenIdx_unflattenIdx _ _ hn']
theorem npTranspose_inverse {X Y : NDArray} {p : List Nat}
    (hp : p.Perm (List.range X.shape.length))
    (hY : npTranspose X (some p) = some Y) :
    ∃ Z, npTranspose Y (some (npArgsort p)) = some Z ∧ aeq Z X := by
  simp only [npTranspose] at hY
  rw [if_pos hp] at hY
  injection hY with hY
  have hslen : X.shape.length = X.shape.length := rfl
  have hYshape : Y.shape = applyPerm p X.shape := by rw [← hY]
  have hYlen : Y.shape.length = X.shape.length := by
    rw [hYshape, applyPerm_length, perm_length hp]
  have hback : applyPerm (npArgsort p) Y.shape = X.shape := by
    rw [hYshape]
    exact applyPerm_argsort_applyPerm hp rfl
  have hq : (npArgsort p).Perm (List.range Y.shape.length) := by
    rw [hYlen]
    exact npArgsort_perm hp
  refine ⟨_, by simp only [npTranspose]; rw [if_pos hq], ?_⟩
  constructor
  · exact hback
  · intro n hn
    have hn' : n < X.shape.prod := by
      have : (applyPerm (npArgsort p) Y.shape).prod = X.shape.prod := by rw [hback]
      simpa [NDArray.size, this] using hn
    have hi : validIdx X.shape (unflattenIdx X.shape n) :=
      validIdx_unflattenIdx _ _ hn'
    have hilen : (unflattenIdx X.shape n).length = X.shape.length :=
      validIdx_length hi
    have hpi : validIdx (applyPerm p X.shape) (applyPerm p (unflattenIdx X.shape n)) :=
      validIdx_applyPerm hp rfl hi
    show Y.data (flattenIdx Y.shape (applyPerm (npArgsort (npArgsort p))
        (unflattenIdx (applyPerm (npArgsort p) Y.shape) n))) = X.data n
    rw [hback, npArgsort_npArgsort hp, ← hY]
    show X.data (flattenIdx X.shape (applyPerm (npArgsort p)
      (unflattenIdx (applyPerm p X.shape)
        (flattenIdx (applyPerm p X.shape) (applyPerm p (unflattenIdx X.shape n)))))) = _
    rw [unflattenIdx_flattenIdx hpi,
      applyPerm_argsort_applyPerm hp hilen,
      flattenIdx_unflattenIdx _ _ hn']
/-- C9.  Confirmed: `Transpose.local_grad` applies the argsort-inverse
permutation (or reverses dimensions again when no permutation was
given), so composing the forward transpose with `local_grad` returns the
original array; `Reshape.local_grad` reshapes back to the operand's
shape, so the composition is the literal identity. -/
theorem C9_transpose_reshape_inverse :
    (∀ (node : Transpose) (p : List Nat), node.axes = some p →
      p.Perm (List.range node.A.shape.length) →
      ∀ X : NDArray, X.shape = node.A.shape →
        ∀ Y, npTranspose X (some p) = some Y →
          ∃ Z, Transpose.local_grad node node.A Y = some Z ∧ aeq Z X) ∧
    (∀ node : Transpose, node.axes = none →
      ∀ X : NDArray, X.shape = node.A.shape →
        ∃ Z, Transpose.local_grad node node.A (npT X) = some Z ∧ aeq Z X) ∧
    (∀ (node : Reshape) (X : NDArray), X.shape = node.A.shape →
      ∀ Y, npReshape X node.new_shape = some Y →
        Reshape.local_grad node node.A Y = some X) := by
  refine ⟨?_, ?_, ?_⟩
  · intro node p hax hp X hX Y hY
    have hp' : p.Perm (List.range X.shape.length) := by rw [hX]; exact hp
    obtain ⟨Z, hZ, hZX⟩ := npTranspose_inverse hp' hY
    refine ⟨Z, ?_, hZX⟩
    show Transpose.local_grad node node.A Y = some Z
    unfold Transpose.local_grad
    rw [hax]
    exact hZ
  · intro node hax X hX
    refine ⟨npT (npT X), ?_, npT_npT X⟩
    unfold Transpose.local_grad
    rw [hax]
  · intro node X hX Y hY
    unfold npReshape at hY
    split at hY
    · injection hY with hY
      unfold Reshape.local_grad npReshape
      rw [← hY]
      have hcount : (⟨node.new_shape, X.data⟩ : NDArray).shape.prod =
          (node.A.shape).prod := by
        have h1 : X.shape.prod = node.new_shape.prod := by assumption
        have h2 : X.shape = node.A.shape := hX
        simp only []
        rw [← h1, h2]
      rw [if_pos hcount]
      have : (⟨node.A.shape, X.data⟩ : NDArray) = X := by
        rw [← hX]
      rw [this]
    · cases hY
theorem C9_witness :
    (c9T.axes = some [2, 0, 1]) ∧
    (List.Perm [2, 0, 1] (List.range c9T.A.shape.length)) ∧
    (c9X.shape = c9T.A.shape) ∧
    (npTranspose c9X (some [2, 0, 1]) = some c9Y) ∧
    (∃ Z, Transpose.local_grad c9T c9T.A c9Y = some Z ∧ aeq Z c9X) ∧
    (∃ Z, Transpose.local_grad c9Trev c9Trev.A (npT c9X) = some Z ∧ aeq Z c9X) ∧
    (Reshape.local_grad c9R c9R.A ⟨[6, 4], c9X.data⟩ = some c9X) :=
  ⟨rfl, by decide, rfl, rfl,
    C9_transpose_reshape_inverse.1 c9T [2, 0, 1] rfl (by decide) c9X rfl c9Y rfl,
    C9_transpose_reshape_inverse.2.1 c9Trev rfl c9X rfl,
    C9_transpose_reshape_inverse.2.2 c9R c9X rfl ⟨[6, 4], c9X.data⟩ rfl⟩
theorem removeAxesGo_single : ∀ (s : List Nat) (i a : Nat),
    removeAxesGo [a] s i = if a < i then s else s.eraseIdx (a - i)
  | [], i, a => by simp [removeAxesGo, List.eraseIdx]
  | x :: rest, i, a => by
    unfold removeAxesGo
    by_cases hia : i = a
    · subst hia
      rw [if_pos (by simp)]
      rw [removeAxesGo_single rest (i + 1) i]
      rw [if_pos (by omega), if_neg (by omega)]
      simp [List.eraseIdx]
    · rw [if_neg (by simp only [List.mem_singleton]; omega)]
      rw [removeAxesGo_single rest (i + 1) a]
      by_cases hlt : a < i
      · rw [if_pos (by omega), if_pos hlt]
      · rw [if_neg (by omega), if_neg hlt]
        have ha : a - i = (a - (i + 1)) + 1 := by omega
        rw [ha]
        simp [List.eraseIdx]
theorem removeAxes_single (s : List Nat) (a : Nat) :
    removeAxes s [a] = s.eraseIdx a := by
  unfold removeAxes
  rw [removeAxesGo_single s 0 a]
  simp
theorem insertIdx_eraseIdx_set : ∀ (s : List Nat) (a : Nat), a < s.length →
    (s.eraseIdx a).insertIdx a 1 = s.set a 1
  | [], a, h => by simp at h
  | x :: rest, 0, _ => by simp [List.eraseIdx]
  | x :: rest, a + 1, h => by
    have ih := insertIdx_eraseIdx_set rest a (by simpa using h)
    simp only [List.eraseIdx, List.insertIdx_succ_cons, List.set]
    rw [ih]
theorem C4_shape_determinism :
    (∀ (node : MatMult) (v : NDArray), MatMult.compute_value node = some v →
      v.shape = MatMult.shape node) ∧
    (∀ (node : MatSum) (v : NDArray), MatSum.compute_value node = some v →
      MatSum.shape node = some v.shape) ∧
    (∀ (node : MatAdd) (v : NDArray), MatAdd.compute_value node = some v →
      MatAdd.shape node = some v.shape) ∧
    (∀ (node : Transpose) (v : NDArray), Transpose.compute_value node = some v →
      Transpose.shape node = some v.shape) ∧
    (∀ (node : Reshape) (v : NDArray), Reshape.compute_value node = some v →
      v.shape = Reshape.shape node) ∧
    (∀ (node : Concatenate) (v : NDArray), Concatenate.compute_value node = some v →
      Concatenate.shape node = some v.shape) := by
  refine ⟨?_, ?_, ?_, ?_, ?_, ?_⟩
  · intro node v hv
    unfold MatMult.compute_value npDot at hv
    split at hv
    · rename_i hA hB
      split at hv
      · injection hv with hv
        rw [← hv]
        unfold MatMult.shape
        rw [if_neg (by simp [Operand.shape, hB])]
        simp [Operand.shape, hA, hB]
      · cases hv
    · rename_i hA hB
      split at hv
      · injection hv with hv
        rw [← hv]
        unfold MatMult.shape
        rw [if_pos (by simp [Operand.shape, hB])]
        simp [Operand.shape, hA]
      · cases hv
    · cases hv
  · intro node v hv
    unfold MatSum.compute_value at hv
    unfold MatSum.shape
    split at hv
    · rename_i hax
      injection hv with hv
      rw [← hv]
      rfl
    · rename_i a hax
      split at hv
      · rename_i ha
        injection hv with hv
        show (if a < node.A.shape.length then some (node.A.shape.set a 1)
          else none) = some v.shape
        rw [if_pos ha, ← hv]
        show some (node.A.shape.set a 1) =
          some (List.insertIdx a 1 (removeAxes node.A.shape [a]))
        rw [removeAxes_single, insertIdx_eraseIdx_set _ _ ha]
      · cases hv
  · intro node v hv
    unfold MatAdd.compute_value npBinop at hv
    obtain ⟨s, hs, hv⟩ := Option.map_eq_some'.mp hv
    show broadcast node.A.val.shape node.B.val.shape = some v.shape
    rw [hs, ← hv]
  · intro node v hv
    unfold Transpose.compute_value npTranspose at hv
    unfold Transpose.shape
    split at hv
    · rename_i hax
      injection hv with hv
      rw [← hv]
      rfl
    · rename_i p hax
      split at hv
      · rename_i hp
        injection hv with hv
        show (if p.all (fun k => k < node.A.shape.length) then
          some (applyPerm p node.A.shape) else none) = some v.shape
        rw [← hv]
        rw [if_pos ?_]
        · rfl
        · rw [List.all_eq_true]
          intro k hk
          have hmem : k < node.A.shape.length := by
            have := hp.mem_iff.mp hk
            simpa using this
          simpa using hmem
      · cases hv
  · intro node v hv
    unfold Reshape.compute_value npReshape at hv
    split at hv
    · injection hv with hv
      rw [← hv]
      rfl
    · cases hv
  · intro node v hv
    unfold Concatenate.compute_value npConcat at hv
    split at hv
    · rename_i hcond
      injection hv with hv
      show (if node.axis < node.A.val.shape.length ∧
          node.axis < node.B.val.shape.length then
        some (node.A.val.shape.set node.axis (node.A.val.shape.getD node.axis 0 +
          node.B.val.shape.getD node.axis 0)) else none) = some v.shape
      rw [if_pos ⟨hcond.2.1, hcond.1 ▸ hcond.2.1⟩, ← hv]
    · cases hv
theorem C4_witness :
    (MatMult.compute_value c4mm =
      some ((MatMult.compute_value c4mm).getD (npOnes [])) ∧
      ((MatMult.compute_value c4mm).getD (npOnes [])).shape = MatMult.shape c4mm) ∧
    (MatSum.compute_value c4ms =
      some ((MatSum.compute_value c4ms).getD (npOnes [])) ∧
      MatSum.shape c4ms = some ((MatSum.compute_value c4ms).getD (npOnes [])).shape) ∧
    (MatAdd.compute_value c4ma =
      some ((MatAdd.compute_value c4ma).getD (npOnes [])) ∧
      MatAdd.shape c4ma = some ((MatAdd.compute_value c4ma).getD (npOnes [])).shape) ∧
    (Transpose.compute_value c4tr =
      some ((Transpose.compute_value c4tr).getD (npOnes [])) ∧
      Transpose.shape c4tr =
        some ((Transpose.compute_value c4tr).getD (npOnes [])).shape) ∧
    (Reshape.compute_value c4re =
      some ((Reshape.compute_value c4re).getD (npOnes [])) ∧
      ((Reshape.compute_value c4re).getD (npOnes [])).shape = Reshape.shape c4re) ∧
    (Concatenate.compute_value c4cc =
      some ((Concatenate.compute_value c4cc).getD (npOnes [])) ∧
      Concatenate.shape c4cc =
        some ((Concatenate.compute_value c4cc).getD (npOnes [])).shape) :=
  ⟨⟨rfl, C4_shape_determinism.1 c4mm _ rfl⟩,
    ⟨rfl, C4_shape_determinism.2.1 c4ms _ rfl⟩,
    ⟨rfl, C4_shape_determinism.2.2.1 c4ma _ rfl⟩,
    ⟨rfl, C4_shape_determinism.2.2.2.1 c4tr _ rfl⟩,
    ⟨rfl, C4_shape_determinism.2.2.2.2.1 c4re _ rfl⟩,
    ⟨rfl, C4_shape_determinism.2.2.2.2.2 c4cc _ rfl⟩⟩
theorem getD_reverse {l : List Nat} {k : Nat} (hk : k < l.length) :
    l.reverse.getD k 0 = l.getD (l.length - 1 - k) 0 := by
  rw [List.getD_eq_getElem _ 0 (by simpa using hk),
    List.getD_eq_getElem _ 0 (by omega)]
  exact List.getElem_reverse ..
theorem getD_set {s : List Nat} {a v k : Nat} (ha : a < s.length) (hk : k < s.length) :
    (s.set a v).getD k 0 = if k = a then v else s.getD k 0 := by
  by_cases h : k = a
  · subst h
    rw [if_pos rfl, List.getD_eq_getElem _ 0 (by simpa using hk)]
    exact List.getElem_set_self _
  · rw [if_neg h, List.getD_eq_getElem _ 0 (by simpa using hk),
      List.getD_eq_getElem _ 0 hk]
    exact List.getElem_set_ne (fun hh => h hh.symm) _
theorem broadcastRev_spec : ∀ (xs ys zs : List Nat), broadcastRev xs ys = some zs →
    zs.length = max xs.length ys.length ∧
    (∀ r, r < xs.length → xs.getD r 0 = 1 ∨ xs.getD r 0 = zs.getD r 0) ∧
    (∀ r, r < ys.length → ys.getD r 0 = 1 ∨ ys.getD r 0 = zs.getD r 0)
  | [], ys, zs => by
    intro h
    simp only [broadcastRev] at h
    injection h with h
    subst h
    refine ⟨by simp, by simp, ?_⟩
    intro r _
    right
    rfl
  | x :: xs, [], zs => by
    intro h
    simp only [broadcastRev] at h
    injection h with h
    subst h
    refine ⟨by simp, ?_, by simp⟩
    intro r _
    right
    rfl
  | x :: xs, y :: ys, zs => by
    intro h
    unfold broadcastRev at h
    cases hbd : broadcastDim x y with
    | none => rw [hbd] at h; cases h
    | some dd =>
      cases hbr : broadcastRev xs ys with
      | none => rw [hbd, hbr] at h; cases h
      | some rest =>
        rw [hbd, hbr] at h
        injection h with h
        subst h
        obtain ⟨ih1, ih2, ih3⟩ := broadcastRev_spec xs ys rest hbr
        have hx0 : x = 1 ∨ x = dd := by
          unfold broadcastDim at hbd
          split at hbd
          · injection hbd with hbd; right; omega
          · split at hbd
            · injection hbd with hbd; left; assumption
            · split at hbd
              · injection hbd with hbd; right; omega
              · cases hbd
        have hy0 : y = 1 ∨ y = dd := by
          unfold broadcastDim at hbd
          split at hbd
          · rename_i heq
            injection hbd with hbd; right; omega
          · split at hbd
            · injection hbd with hbd; right; omega
            · split at hbd
              · injection hbd with hbd; left; assumption
              · cases hbd
        refine ⟨?_, ?_, ?_⟩
        · simp only [List.length_cons, ih1]
          omega
        · intro r hr
          match r with
          | 0 => simpa using hx0
          | r + 1 => simpa using ih2 r (by simpa using hr)
        · intro r hr
          match r with
          | 0 => simpa using hy0
          | r + 1 => simpa using ih3 r (by simpa using hr)
theorem broadcast_some {sa sb s : List Nat} (h : broadcast sa sb = some s) :
    broadcastRev sa.reverse sb.reverse = some s.reverse := by
  unfold broadcast at h
  obtain ⟨zs, hz, hmap⟩ := Option.map_eq_some'.mp h
  rw [hz, ← hmap, List.reverse_reverse]
theorem broadcastRev_of_pointwise : ∀ (xs ys : List Nat), xs.length = ys.length →
    (∀ k, k < xs.length → xs.getD k 0 = 1 ∨ xs.getD k 0 = ys.getD k 0) →
    broadcastRev xs ys = some ys
  | [], [], _, _ => rfl
  | [], y :: ys, hlen, _ => by simp at hlen
  | x :: xs, [], hlen, _ => by simp at hlen
  | x :: xs, y :: ys, hlen, hpt => by
    have h0 : x = 1 ∨ x = y := by simpa using hpt 0 (by simp)
    have hbd : broadcastDim x y = some y := by
      unfold broadcastDim
      rcases h0 with h0 | h0
      · subst h0
        by_cases hxy : (1 : Nat) = y
        · rw [if_pos hxy, hxy]
        · rw [if_neg hxy, if_pos rfl]
      · subst h0
        rw [if_pos rfl]
    have hrest : broadcastRev xs ys = some ys := by
      refine broadcastRev_of_pointwise xs ys (by simpa using hlen) ?_
      intro k hk
      simpa using hpt (k + 1) (by simpa using hk)
    unfold broadcastRev
    rw [hbd, hrest]
theorem broadcast_of_pointwise (xs ys : List Nat) (hlen : xs.length = ys.length)
    (hpt : ∀ k, k < xs.length → xs.getD k 0 = 1 ∨ xs.getD k 0 = ys.getD k 0) :
    broadcast xs ys = some ys := by
  unfold broadcast
  rw [broadcastRev_of_pointwise xs.reverse ys.reverse (by simp [hlen]) ?_]
  · simp
  · intro k hk
    have hk' : k < xs.length := by simpa using hk
    have hk2 : k < ys.length := by omega
    rw [getD_reverse hk', getD_reverse hk2]
    rw [show ys.length - 1 - k = xs.length - 1 - k by omega]
    exact hpt (xs.length - 1 - k) (by omega)
theorem broadcast_set_one {s : List Nat} {a : Nat} (ha : a < s.length) :
    broadcast (s.set a 1) s = some s := by
  refine broadcast_of_pointwise _ _ (by simp) ?_
  intro k hk
  have hk' : k < s.length := by simpa using hk
  rw [getD_set ha hk']
  by_cases h : k = a
  · rw [if_pos h]; left; rfl
  · rw [if_neg h]; right; rfl
theorem broadcast_replicate_one (s : List Nat) :
    broadcast (List.replicate s.length 1) s = some s := by
  refine broadcast_of_pointwise _ _ (by simp) ?_
  intro k hk
  left
  have hk' : k < s.length := by simpa using hk
  rw [List.getD_eq_getElem _ 0 (by simpa using hk')]
  exact List.getElem_replicate ..
theorem filterMap_cons_eq_none {α β : Type} (f : α → Option β) (a : α) (l : List α)
    (h : f a = none) : List.filterMap f (a :: l) = List.filterMap f l := by
  simp [List.filterMap_cons, h]
theorem filterMap_cons_eq_some {α β : Type} (f : α → Option β) (a : α) (b : β)
    (l : List α) (h : f a = some b) :
    List.filterMap f (a :: l) = b :: List.filterMap f l := by
  simp [List.filterMap_cons, h]
theorem removeAxesGo_filterMap : ∀ (s axes : List Nat) (i : Nat),
    removeAxesGo axes s i = (List.range s.length).filterMap
      (fun j => if (j + i) ∈ axes then none else some (s.getD j 0))
  | [], axes, i => by simp [removeAxesGo]
  | x :: rest, axes, i => by
    have ih := removeAxesGo_filterMap rest axes (i + 1)
    have hfun : ((fun j => if j + i ∈ axes then none
          else some ((x :: rest).getD j 0)) ∘ Nat.succ) =
        (fun j => if j + (i + 1) ∈ axes then none else some (rest.getD j 0)) := by
      funext j
      simp only [Function.comp, Nat.succ_eq_add_one, List.getD_cons_succ]
      rw [show j + 1 + i = j + (i + 1) by omega]
    unfold removeAxesGo
    rw [List.length_cons, List.range_succ_eq_map]
    by_cases hmem : i ∈ axes
    · rw [if_pos hmem,
        filterMap_cons_eq_none
          (fun j => if j + i ∈ axes then none else some ((x :: rest).getD j 0)) 0
          (List.map Nat.succ (List.range rest.length)) (by simp [hmem]),
        List.filterMap_map, hfun, ih]
    · rw [if_neg hmem,
        filterMap_cons_eq_some
          (fun j => if j + i ∈ axes then none else some ((x :: rest).getD j 0)) 0 x
          (List.map Nat.succ (List.range rest.length)) (by simp [hmem]),
        List.filterMap_map, hfun, ih]
theorem prod_filterMap_ite (l : List Nat) (P : Nat → Prop) [DecidablePred P]
    (f : Nat → Nat) :
    (l.filterMap (fun j => if P j then none else some (f j))).prod =
      (l.map (fun j => if P j then 1 else f j)).prod := by
  induction l with
  | nil => rfl
  | cons x rest ih =>
    by_cases h : P x <;> simp [h, ih, List.filterMap_cons]
theorem axesForSumGo_mem : ∀ (dsR msR : List Nat) (j : Nat),
    j ∈ axesForSumGo msR dsR (dsR.length - 1) ↔
      j < dsR.length ∧ (msR.length ≤ dsR.length - 1 - j ∨
        msR.getD (dsR.length - 1 - j) 0 = 1)
  | [], msR, j => by
    cases msR <;> simp [axesForSumGo]
  | d :: ds, [], j => by
    have ih := axesForSumGo_mem ds [] j
    simp only [axesForSumGo, List.length_cons, Nat.add_sub_cancel,
      List.mem_cons]
    constructor
    · rintro (rfl | hmem)
      · exact ⟨by omega, by simp⟩
      · have := ih.mp hmem
        exact ⟨by omega, by simp⟩
    · rintro ⟨hj, _⟩
      by_cases hje : j = ds.length
      · left; exact hje
      · right
        exact ih.mpr ⟨by omega, by simp⟩
  | d :: ds, m :: ms, j => by
    have ih := axesForSumGo_mem ds ms j
    simp only [axesForSumGo, List.length_cons, Nat.add_sub_cancel]
    by_cases hje : j = ds.length
    · subst hje
      rw [show ds.length - ds.length = 0 by omega]
      simp only [List.getD_cons_zero, List.length_cons]
      by_cases hm : m = 1
      · rw [if_pos hm]
        simp only [List.mem_cons]
        constructor
        · intro _
          exact ⟨by omega, Or.inr hm⟩
        · intro _
          left
          trivial
      · rw [if_neg hm]
        constructor
        · intro hmem
          have := (ih.mp hmem).1
          omega
        · rintro ⟨_, h2 | h2⟩
          · omega
          · exact absurd h2 hm
    · by_cases hj : j < ds.length
      · have heq1 : ds.length - j = (ds.length - 1 - j) + 1 := by omega
        rw [heq1]
        simp only [List.getD_cons_succ, List.length_cons]
        have hmemif : j ∈ (if m = 1 then ds.length :: axesForSumGo ms ds (ds.length - 1)
            else axesForSumGo ms ds (ds.length - 1)) ↔
            j ∈ axesForSumGo ms ds (ds.length - 1) := by
          by_cases hm : m = 1
          · rw [if_pos hm]
            simp only [List.mem_cons]
            constructor
            · rintro (rfl | h); · omega
              exact h
            · intro h; right; exact h
          · rw [if_neg hm]
        rw [hmemif, ih]
        constructor
        · rintro ⟨h1, h2 | h2⟩
          · exact ⟨by omega, Or.inl (by omega)⟩
          · exact ⟨by omega, Or.inr h2⟩
        · rintro ⟨h1, h2 | h2⟩
          · exact ⟨by omega, Or.inl (by omega)⟩
          · exact ⟨by omega, Or.inr h2⟩
      · constructor
        · intro hmem
          have hmem' : j ∈ axesForSumGo ms ds (ds.length - 1) := by
            by_cases hm : m = 1
            · rw [if_pos hm] at hmem
              rcases List.mem_cons.mp hmem with rfl | h
              · omega
              · exact h
            · rw [if_neg hm] at hmem
              exact hmem
          have := (ih.mp hmem').1
          omega
        · rintro ⟨h1, _⟩
          omega
theorem axes_for_sum_mem (ms ds : List Nat) (j : Nat) :
    j ∈ axes_for_sum ms ds ↔
      j < ds.length ∧ (ms.length ≤ ds.length - 1 - j ∨
        ms.reverse.getD (ds.length - 1 - j) 0 = 1) := by
  unfold axes_for_sum
  rw [List.mem_reverse]
  have h := axesForSumGo_mem ds.reverse ms.reverse j
  simpa using h
theorem removeAxes_filterMap (s axes : List Nat) :
    removeAxes s axes = (List.range s.length).filterMap
      (fun j => if j ∈ axes then none else some (s.getD j 0)) := by
  unfold removeAxes
  rw [removeAxesGo_filterMap]
  simp
/-- The compatibility of an operand shape with the broadcast result,
read off left-aligned with the trailing-dimension offset. -/
theorem broadcast_pointwise {sa sb s : List Nat} (h : broadcast sa sb = some s) :
    (sa.length ≤ s.length ∧ ∀ k, k < sa.length →
      sa.getD k 0 = 1 ∨ sa.getD k 0 = s.getD (k + (s.length - sa.length)) 0) ∧
    (sb.length ≤ s.length ∧ ∀ k, k < sb.length →
      sb.getD k 0 = 1 ∨ sb.getD k 0 = s.getD (k + (s.length - sb.length)) 0) := by
  have hrev := broadcastRev_spec _ _ _ (broadcast_some h)
  obtain ⟨hlen, hA, hB⟩ := hrev
  simp only [List.length_reverse] at hlen
  have hla : sa.length ≤ s.length := by omega
  have hlb : sb.length ≤ s.length := by omega
  refine ⟨⟨hla, ?_⟩, ⟨hlb, ?_⟩⟩
  · intro k hk
    have h1 := hA (sa.length - 1 - k) (by simp; omega)
    rw [getD_reverse (by omega : sa.length - 1 - k < sa.length)] at h1
    rw [getD_reverse (by omega : sa.length - 1 - k < s.length)] at h1
    rw [show sa.length - 1 - (sa.length - 1 - k) = k by omega] at h1
    rw [show s.length - 1 - (sa.length - 1 - k) = k + (s.length - sa.length) by omega] at h1
    exact h1
  · intro k hk
    have h1 := hB (sb.length - 1 - k) (by simp; omega)
    rw [getD_reverse (by omega : sb.length - 1 - k < sb.length)] at h1
    rw [getD_reverse (by omega : sb.length - 1 - k < s.length)] at h1
    rw [show sb.length - 1 - (sb.length - 1 - k) = k by omega] at h1
    rw [show s.length - 1 - (sb.length - 1 - k) = k + (s.length - sb.length) by omega] at h1
    exact h1
theorem prod_removeAxes_axes_for_sum {ms ds : List Nat}
    (hlen : ms.length ≤ ds.length)
    (hpt : ∀ k, k < ms.length →
      ms.getD k 0 = 1 ∨ ms.getD k 0 = ds.getD (k + (ds.length - ms.length)) 0) :
    (removeAxes ds (axes_for_sum ms ds)).prod = ms.prod := by
  rw [removeAxes_filterMap,
    prod_filterMap_ite (List.range ds.length) (fun j => j ∈ axes_for_sum ms ds)
      (fun j => ds.getD j 0)]
  have hsplit : ds.length = (ds.length - ms.length) + ms.length := by omega
  rw [hsplit, List.range_add, List.map_append, List.prod_append]
  have h1 : ((List.range (ds.length - ms.length)).map
      (fun j => if j ∈ axes_for_sum ms ds then 1 else ds.getD j 0)).prod = 1 := by
    apply List.prod_eq_one
    intro y hy
    obtain ⟨j, hj, rfl⟩ := List.mem_map.mp hy
    have hj' : j < ds.length - ms.length := List.mem_range.mp hj
    rw [if_pos ((axes_for_sum_mem ms ds j).mpr ⟨by omega, Or.inl (by omega)⟩)]
  have h2 : ((List.range ms.length).map ((ds.length - ms.length) + ·)).map
        (fun j => if j ∈ axes_for_sum ms ds then 1 else ds.getD j 0) =
      (List.range ms.length).map (fun k => ms.getD k 0) := by
    rw [List.map_map]
    apply List.map_congr_left
    intro k hk
    have hk' : k < ms.length := List.mem_range.mp hk
    simp only [Function.comp]
    have hr : ds.length - 1 - ((ds.length - ms.length) + k) = ms.length - 1 - k := by
      omega
    by_cases hone : ms.getD k 0 = 1
    · rw [if_pos ((axes_for_sum_mem ms ds _).mpr ⟨by omega, Or.inr ?_⟩), hone]
      rw [hr, getD_reverse (by omega : ms.length - 1 - k < ms.length)]
      rw [show ms.length - 1 - (ms.length - 1 - k) = k by omega]
      exact hone
    · rw [if_neg ?_]
      · rcases hpt k hk' with h | h
        · exact absurd h hone
        · rw [Nat.add_comm (ds.length - ms.length) k, ← h]
      · intro hmem
        obtain ⟨_, hcase⟩ := (axes_for_sum_mem ms ds _).mp hmem
        rcases hcase with hcase | hcase
        · omega
        · rw [hr, getD_reverse (by omega : ms.length - 1 - k < ms.length),
            show ms.length - 1 - (ms.length - 1 - k) = k by omega] at hcase
          exact hone hcase
  rw [h1, h2, Nat.one_mul]
  have := map_getD_range ms
  rw [this]
theorem matAdd_sum_prod {node : MatAdd} {parent : Operand} {d : NDArray}
    {s : List Nat} (hpar : parent = node.A ∨ parent = node.B)
    (hs : MatAdd.shape node = some s) (hd : d.shape = s) :
    (npSumAxes d (axes_for_sum parent.shape d.shape)).shape.prod =
      parent.shape.prod := by
  have hbc : broadcast node.A.shape node.B.shape = some s := hs
  have hpt := broadcast_pointwise hbc
  show (removeAxes d.shape (axes_for_sum parent.shape d.shape)).prod = _
  rw [hd]
  rcases hpar with rfl | rfl
  · exact prod_removeAxes_axes_for_sum hpt.1.1 hpt.1.2
  · exact prod_removeAxes_axes_for_sum hpt.2.1 hpt.2.2
theorem matAdd_parent_len {node : MatAdd} {parent : Operand} {s : List Nat}
    (hpar : parent = node.A ∨ parent = node.B)
    (hs : MatAdd.shape node = some s) : parent.shape.length ≤ s.length := by
  have hpt := broadcast_pointwise (hs : broadcast node.A.shape node.B.shape = some s)
  rcases hpar with rfl | rfl
  · exact hpt.1.1
  · exact hpt.2.1
/-- C2.  Corrected: as stated the claim fails for a `MatAdd` node whose
two operands are the same object, because `local_grad` first asserts
`self.A is not self.B`.  Amended claim (for nodes with distinct operand
objects): if the incoming gradient's shape equals the parent's shape the
gradient is returned unchanged; otherwise `local_grad` returns the
gradient summed over exactly the output axes along which the parent was
broadcast — the axes where the parent's right-aligned shape entry is
missing or equals 1 — reshaped to the parent's shape; and on the
concrete shapes (3,4)/(4,) the result is the exact adjoint of the
forward broadcast with respect to the standard inner product. -/
theorem C2_matadd_broadcast_gradient :
    (∀ (node : MatAdd) (parent : Operand) (d : NDArray) (s : List Nat),
      node.A.id ≠ node.B.id → (parent = node.A ∨ parent = node.B) →
      MatAdd.shape node = some s → d.shape = s → d.shape = parent.shape →
      ∃ g, MatAdd.local_grad node parent d = some g ∧ aeq g d) ∧
    (∀ (node : MatAdd) (parent : Operand) (d : NDArray) (s : List Nat),
      node.A.id ≠ node.B.id → (parent = node.A ∨ parent = node.B) →
      MatAdd.shape node = some s → d.shape = s → d.shape ≠ parent.shape →
      MatAdd.local_grad node parent d =
        npReshape (npSumAxes d (axes_for_sum parent.shape d.shape)) parent.shape ∧
      ∃ g, MatAdd.local_grad node parent d = some g ∧ g.shape = parent.shape) ∧
    (∀ (ms ds : List Nat) (j : Nat),
      j ∈ axes_for_sum ms ds ↔ j < ds.length ∧
        (ms.length ≤ ds.length - 1 - j ∨
          ms.reverse.getD (ds.length - 1 - j) 0 = 1)) ∧
    (∀ x d : NDArray, x.shape = [4] → d.shape = [3, 4] →
      ∃ g, MatAdd.local_grad ⟨⟨0, npOnes [3, 4]⟩, ⟨1, x⟩⟩ ⟨1, x⟩ d = some g ∧
        g.shape = [4] ∧ dotAll (broadcastTo x [3, 4]) d = dotAll x g) := by
  refine ⟨?_, ?_, axes_for_sum_mem, ?_⟩
  · intro node parent d s hid hpar hs hd hmatch
    by_cases h0 : d.shape = []
    · have hp0 : parent.shape = [] := by rw [← hmatch, h0]
      obtain ⟨sd, dd⟩ := d
      simp only at h0
      subst h0
      have hstep : MatAdd.local_grad node parent ⟨[], dd⟩ =
          npReshape (npSumAxes ⟨[], dd⟩ (axes_for_sum parent.shape [])) parent.shape := by
        unfold MatAdd.local_grad
        rw [if_neg hid, if_neg (by rw [hp0]; simp [atleast1dShape])]
      rw [hstep, hp0]
      refine ⟨_, by rw [show axes_for_sum [] ([] : List Nat) = [] from rfl]; rfl, ?_⟩
      constructor
      · rfl
      · intro n hn
        have hn1 : n = 0 := by
          simpa [npReshape, npSumAxes, NDArray.size, removeAxes, removeAxesGo] using hn
        subst hn1
        show (npSumAxes ⟨[], dd⟩ []).data 0 = dd 0
        simp only [npSumAxes]
        rw [Finset.sum_filter]
        simp [Finset.sum_range_succ, removeAxes, removeAxesGo, unflattenIdx]
    · refine ⟨d, ?_, ⟨rfl, fun _ _ => rfl⟩⟩
      unfold MatAdd.local_grad
      rw [if_neg hid, if_pos (by rw [← hmatch]; simp [atleast1dShape, h0])]
  · intro node parent d s hid hpar hs hd hne
    have hlp := matAdd_parent_len hpar hs
    have hcond : atleast1dShape d.shape ≠ parent.shape := by
      unfold atleast1dShape
      split
      · rename_i h0
        have hs0 : s = [] := by rw [← hd, h0]
        have hp0 : parent.shape = [] := by
          rw [hs0] at hlp
          simp only [List.length_nil, Nat.le_zero] at hlp
          exact List.length_eq_zero.mp hlp
        rw [hp0]
        simp
      · exact hne
    have hstep : MatAdd.local_grad node parent d =
        npReshape (npSumAxes d (axes_for_sum parent.shape d.shape)) parent.shape := by
      unfold MatAdd.local_grad
      rw [if_neg hid, if_neg hcond]
    refine ⟨hstep, ?_⟩
    rw [hstep]
    unfold npReshape
    rw [if_pos (matAdd_sum_prod hpar hs hd)]
    exact ⟨_, rfl, rfl⟩
  · intro x d hx hd
    obtain ⟨sx, dx⟩ := x
    obtain ⟨sd, ddt⟩ := d
    simp only at hx hd
    subst hx
    subst hd
    refine ⟨_, rfl, rfl, ?_⟩
    rw [show axes_for_sum (⟨1, ⟨[4], dx⟩⟩ : Operand).shape [3, 4] = [0] from rfl]
    simp only [dotAll, NDArray.size, broadcastTo, NDArray.get, npSumAxes]
    norm_num [Finset.sum_range_succ, Finset.sum_filter, bcastIndex, unflattenIdx,
      removeAxes, removeAxesGo, flattenIdx]
    ring
/-- C2 counterexample: a MatAdd node built from the same operand object
twice is successfully constructed, the incoming gradient's shape equals
the operand's shape, yet `local_grad` fails on its distinct-operands
assertion instead of returning the gradient unchanged. -/
theorem C2_counterexample :
    MatAdd.init ⟨0, npOnes [2]⟩ ⟨0, npOnes [2]⟩ =
      Except.ok ⟨⟨0, npOnes [2]⟩, ⟨0, npOnes [2]⟩⟩ ∧
    (npOnes [2]).shape = (⟨0, npOnes [2]⟩ : Operand).shape ∧
    MatAdd.local_grad ⟨⟨0, npOnes [2]⟩, ⟨0, npOnes [2]⟩⟩ ⟨0, npOnes [2]⟩
      (npOnes [2]) = none :=
  ⟨rfl, rfl, rfl⟩
theorem C2_witness :
    ((⟨⟨0, npOnes [3, 4]⟩, ⟨1, npOnes [4]⟩⟩ : MatAdd).A.id ≠
      (⟨⟨0, npOnes [3, 4]⟩, ⟨1, npOnes [4]⟩⟩ : MatAdd).B.id) ∧
    ((⟨1, npOnes [4]⟩ : Operand) = (⟨⟨0, npOnes [3, 4]⟩, ⟨1, npOnes [4]⟩⟩ : MatAdd).A ∨
      (⟨1, npOnes [4]⟩ : Operand) = (⟨⟨0, npOnes [3, 4]⟩, ⟨1, npOnes [4]⟩⟩ : MatAdd).B) ∧
    (MatAdd.shape ⟨⟨0, npOnes [3, 4]⟩, ⟨1, npOnes [4]⟩⟩ = some [3, 4]) ∧
    ((npOnes [3, 4]).shape = [3, 4]) ∧
    ((npOnes [3, 4]).shape ≠ (⟨1, npOnes [4]⟩ : Operand).shape) ∧
    (MatAdd.local_grad ⟨⟨0, npOnes [3, 4]⟩, ⟨1, npOnes [4]⟩⟩ ⟨1, npOnes [4]⟩
        (npOnes [3, 4]) =
      npReshape (npSumAxes (npOnes [3, 4])
        (axes_for_sum (⟨1, npOnes [4]⟩ : Operand).shape (npOnes [3, 4]).shape))
        (⟨1, npOnes [4]⟩ : Operand).shape ∧
      ∃ g, MatAdd.local_grad ⟨⟨0, npOnes [3, 4]⟩, ⟨1, npOnes [4]⟩⟩ ⟨1, npOnes [4]⟩
          (npOnes [3, 4]) = some g ∧
        g.shape = (⟨1, npOnes [4]⟩ : Operand).shape) :=
  ⟨by decide, Or.inr rfl, rfl, rfl, by decide,
    C2_matadd_broadcast_gradient.2.1 ⟨⟨0, npOnes [3, 4]⟩, ⟨1, npOnes [4]⟩⟩
      ⟨1, npOnes [4]⟩ (npOnes [3, 4]) [3, 4] (by decide) (Or.inr rfl) rfl rfl
      (by decide)⟩
theorem set_getD_self {l : List Nat} {n : Nat} (h : n < l.length) :
    l.set n (l.getD n 0) = l := by
  apply List.ext_getElem (by simp)
  intro i h1 h2
  by_cases hin : i = n
  · subst hin
    rw [List.getElem_set_self _]
    exact List.getD_eq_getElem l 0 h2
  · exact List.getElem_set_ne (fun hh => hin hh.symm) _
/-- C3.  Corrected: as stated the claim fails — e.g. a Concatenate node
whose operand shapes disagree off the concatenation axis is successfully
constructed (no validation), yet `local_grad` for parent B returns an
array whose shape differs from B's; MatAdd with identical operand
objects, Transpose with a non-permutation `axes`, Reshape with an
element-count mismatch, and MatMult with operands of rank ≥ 3 give
further failures.  Amended claim: for every variant, whenever the node's
operands additionally satisfy the operation's intended validity
conditions (MatMult: A of rank 2 and B of rank 1 or 2; MatAdd and
Concatenate: distinct operand objects; Transpose: `axes` a permutation;
Reshape: target element count equal to the operand's; Concatenate:
equal ranks and off-axis shapes agreeing), `local_grad(P, d)` on a
gradient `d` shaped as the node's output returns an array shaped exactly
`P.shape()`. -/
theorem C3_gradient_shapes :
    (∀ (A B : Operand) (node : MatMult) (m k : Nat),
      MatMult.init A B = Except.ok node → A.id ≠ B.id → A.val.shape = [m, k] →
      ∀ d : NDArray, d.shape = node.shape →
      (B.val.shape.length = 1 ∨ B.val.shape.length = 2) →
      (∃ g, MatMult.local_grad node A d = some g ∧ g.shape = A.shape) ∧
      (∃ g, MatMult.local_grad node B d = some g ∧ g.shape = B.shape)) ∧
    (∀ (node : MatSum) (s : List Nat) (d : NDArray),
      MatSum.shape node = some s → d.shape = s →
      ∃ g, MatSum.local_grad node node.A d = some g ∧ g.shape = node.A.shape) ∧
    (∀ (node : MatAdd) (parent : Operand) (s : List Nat) (d : NDArray),
      node.A.id ≠ node.B.id → (parent = node.A ∨ parent = node.B) →
      MatAdd.shape node = some s → d.shape = s →
      ∃ g, MatAdd.local_grad node parent d = some g ∧ g.shape = parent.shape) ∧
    (∀ (node : Transpose) (s : List Nat) (d : NDArray),
      Transpose.shape node = some s → d.shape = s →
      (node.axes = none ∨
        ∃ p, node.axes = some p ∧ p.Perm (List.range node.A.shape.length)) →
      ∃ g, Transpose.local_grad node node.A d = some g ∧ g.shape = node.A.shape) ∧
    (∀ (node : Reshape) (d : NDArray),
      node.new_shape.prod = node.A.shape.prod → d.shape = node.new_shape →
      ∃ g, Reshape.local_grad node node.A d = some g ∧ g.shape = node.A.shape) ∧
    (∀ (node : Concatenate) (s : List Nat) (d : NDArray),
      node.A.id ≠ node.B.id →
      node.A.shape.length = node.B.shape.length →
      node.A.shape.set node.axis 0 = node.B.shape.set node.axis 0 →
      Concatenate.shape node = some s → d.shape = s →
      (∃ g, Concatenate.local_grad node node.A d = some g ∧
        g.shape = node.A.shape) ∧
      (∃ g, Concatenate.local_grad node node.B d = some g ∧
        g.shape = node.B.shape)) := by
  refine ⟨?_, ?_, ?_, ?_, ?_, ?_⟩
  · -- MatMult
    intro A B node m k hinit hid hA d hd hB
    obtain ⟨rfl, hr2, hr1, hinner⟩ := matMult_init_ok hinit
    have hid' : B.id ≠ A.id := fun h => hid h.symm
    have hAlen : ¬(A.shape.length = 1) := by simp [Operand.shape, hA]
    rcases hB with hB1 | hB2
    · obtain ⟨kk, hBs⟩ := List.length_eq_one.mp hB1
      have hkk : kk = k := by
        have hinner' : A.val.shape.getD 1 0 = B.val.shape.getD 0 0 := hinner
        rw [hA, hBs] at hinner'
        simpa using hinner'.symm
      subst hkk
      have hd2 : d.shape = [m] := by
        rw [hd]
        simp [MatMult.shape, Operand.shape, hA, hBs]
      constructor
      · refine ⟨npOuter d B.val, ?_, ?_⟩
        · unfold MatMult.local_grad
          rw [if_pos rfl, if_pos (by simp [Operand.shape, hBs])]
        · show [d.size, B.val.size] = A.shape
          simp [NDArray.size, hd2, hBs, Operand.shape, hA]
      · have hT : (npT A.val).shape = [kk, m] := by simp [npT, hA]
        have hstep : MatMult.local_grad ⟨A, B⟩ B d = npDot (npT A.val) d := by
          unfold MatMult.local_grad
          rw [if_neg hid', if_pos rfl, if_neg hAlen]
        rw [hstep, npDot_mv hT hd2]
        exact ⟨_, rfl, by simp [Operand.shape, hBs]⟩
    · obtain ⟨kk, p, hBs⟩ := List.length_eq_two.mp hB2
      have hkk : kk = k := by
        have hinner' : A.val.shape.getD 1 0 = B.val.shape.getD 0 0 := hinner
        rw [hA, hBs] at hinner'
        simpa using hinner'.symm
      subst hkk
      have hd2 : d.shape = [m, p] := by
        rw [hd]
        simp [MatMult.shape, Operand.shape, hA, hBs]
      constructor
      · have hT : (npT B.val).shape = [p, kk] := by simp [npT, hBs]
        have hstep : MatMult.local_grad ⟨A, B⟩ A d = npDot d (npT B.val) := by
          unfold MatMult.local_grad
          rw [if_pos rfl, if_neg (by simp [Operand.shape, hBs])]
        rw [hstep, npDot_mm hd2 hT]
        exact ⟨_, rfl, by simp [Operand.shape, hA]⟩
      · have hT : (npT A.val).shape = [kk, m] := by simp [npT, hA]
        have hstep : MatMult.local_grad ⟨A, B⟩ B d = npDot (npT A.val) d := by
          unfold MatMult.local_grad
          rw [if_neg hid', if_pos rfl, if_neg hAlen]
        rw [hstep, npDot_mm hT hd2]
        exact ⟨_, rfl, by simp [Operand.shape, hBs]⟩
  · -- MatSum
    intro node s d hs hd
    have hbc : broadcast d.shape node.A.shape = some node.A.shape := by
      unfold MatSum.shape at hs
      split at hs
      · injection hs with hs
        rw [hd, ← hs]
        exact broadcast_replicate_one _
      · split at hs
        · rename_i ha
          injection hs with hs
          rw [hd, ← hs]
          exact broadcast_set_one ha
        · cases hs
    unfold MatSum.local_grad npBinop
    rw [if_pos rfl, show (npOnes node.A.shape).shape = node.A.shape from rfl, hbc]
    exact ⟨_, rfl, rfl⟩
  · -- MatAdd
    intro node parent s d hid hpar hs hd
    have hlp := matAdd_parent_len hpar hs
    by_cases hcond : atleast1dShape d.shape = parent.shape
    · have hd0 : d.shape ≠ [] := by
        intro h0
        have hs0 : s = [] := by rw [← hd, h0]
        rw [hs0] at hlp
        simp only [List.length_nil, Nat.le_zero] at hlp
        have hp0 := List.length_eq_zero.mp hlp
        rw [h0, hp0] at hcond
        simp [atleast1dShape] at hcond
      refine ⟨d, ?_, ?_⟩
      · unfold MatAdd.local_grad
        rw [if_neg hid, if_pos hcond]
      · rw [← hcond]
        simp [atleast1dShape, hd0]
    · have hstep : MatAdd.local_grad node parent d =
          some ⟨parent.shape, (npSumAxes d (axes_for_sum parent.shape d.shape)).data⟩ := by
        unfold MatAdd.local_grad
        rw [if_neg hid, if_neg hcond]
        unfold npReshape
        rw [if_pos (matAdd_sum_prod hpar hs hd)]
      exact ⟨_, hstep, rfl⟩
  · -- Transpose
    intro node s d hs hd hax
    rcases hax with hax | ⟨p, hax, hp⟩
    · simp only [Transpose.shape, hax] at hs
      injection hs with hs
      refine ⟨npT d, ?_, ?_⟩
      · unfold Transpose.local_grad
        rw [hax]
      · show d.shape.reverse = node.A.shape
        rw [hd, ← hs]
        exact List.reverse_reverse _
    · simp only [Transpose.shape, hax] at hs
      split at hs
      · injection hs with hs
        have hdlen : d.shape.length = node.A.shape.length := by
          rw [hd, ← hs, applyPerm_length, perm_length hp]
        have hq : (npArgsort p).Perm (List.range d.shape.length) := by
          rw [hdlen]
          exact npArgsort_perm hp
        have hstep : Transpose.local_grad node node.A d =
            some ⟨applyPerm (npArgsort p) d.shape, fun n =>
              d.data (flattenIdx d.shape
                (applyPerm (npArgsort (npArgsort p))
                  (unflattenIdx (applyPerm (npArgsort p) d.shape) n)))⟩ := by
          simp only [Transpose.local_grad, hax, npTranspose]
          rw [if_pos hq]
        refine ⟨_, hstep, ?_⟩
        show applyPerm (npArgsort p) d.shape = node.A.shape
        rw [hd, ← hs]
        exact applyPerm_argsort_applyPerm hp rfl
      · cases hs
  · -- Reshape
    intro node d hcount hd
    have hstep : Reshape.local_grad node node.A d = some ⟨node.A.shape, d.data⟩ := by
      unfold Reshape.local_grad npReshape
      rw [if_pos (by rw [hd]; exact hcount)]
    exact ⟨_, hstep, rfl⟩
  · -- Concatenate
    intro node s d hid hranks hoff hs hd
    unfold Concatenate.shape at hs
    split at hs
    · rename_i hax
      obtain ⟨hax1, hax2⟩ := hax
      injection hs with hs
      have hdlen : node.axis < d.shape.length := by
        rw [hd, ← hs]
        simpa using hax1
      have hsplit : ∃ l r, npSplit d node.axis (node.A.shape.getD node.axis 0) =
          some (l, r) ∧
          l.shape = d.shape.set node.axis
            (min (node.A.shape.getD node.axis 0) (d.shape.getD node.axis 0)) ∧
          r.shape = d.shape.set node.axis
            (d.shape.getD node.axis 0 -
              min (node.A.shape.getD node.axis 0) (d.shape.getD node.axis 0)) := by
        unfold npSplit
        rw [if_pos hdlen]
        exact ⟨_, _, rfl, rfl, rfl⟩
      obtain ⟨l, r, hsplit, hls, hrs⟩ := hsplit
      have hsz : d.shape.getD node.axis 0 =
          node.A.shape.getD node.axis 0 + node.B.shape.getD node.axis 0 := by
        rw [hd, ← hs]
        exact getD_set hax1 (by simpa using hax1) |>.trans (by rw [if_pos rfl])
      have hmin : min (node.A.shape.getD node.axis 0) (d.shape.getD node.axis 0) =
          node.A.shape.getD node.axis 0 := by
        rw [hsz]; omega
      have hlshape : d.shape.set node.axis
          (min (node.A.shape.getD node.axis 0) (d.shape.getD node.axis 0)) =
          node.A.shape := by
        rw [hmin, hd, ← hs, List.set_set]
        exact set_getD_self hax1
      have hrshape : d.shape.set node.axis
          (d.shape.getD node.axis 0 -
            min (node.A.shape.getD node.axis 0) (d.shape.getD node.axis 0)) =
          node.B.shape := by
        rw [hmin, hsz, hd, ← hs, List.set_set,
          show node.A.shape.getD node.axis 0 + node.B.shape.getD node.axis 0 -
            node.A.shape.getD node.axis 0 = node.B.shape.getD node.axis 0 by omega]
        calc node.A.shape.set node.axis (node.B.shape.getD node.axis 0)
            = (node.A.shape.set node.axis 0).set node.axis
                (node.B.shape.getD node.axis 0) := by rw [List.set_set]
          _ = (node.B.shape.set node.axis 0).set node.axis
                (node.B.shape.getD node.axis 0) := by rw [hoff]
          _ = node.B.shape.set node.axis (node.B.shape.getD node.axis 0) := by
                rw [List.set_set]
          _ = node.B.shape := set_getD_self (by rw [← hranks]; exact hax1)
      constructor
      · refine ⟨l, ?_, hls.trans hlshape⟩
        unfold Concatenate.local_grad
        rw [if_neg hid, if_pos hax1, hsplit]
        simp
      · refine ⟨r, ?_, hrs.trans hrshape⟩
        unfold Concatenate.local_grad
        rw [if_neg hid, if_pos hax1, hsplit]
        have hid' : node.B.id ≠ node.A.id := fun h => hid h.symm
        simp [hid']
    · cases hs
/-- C3 counterexample: Concatenate of operands shaped (2,3) and (5,4)
along axis 1 is successfully constructed (no validation), its declared
output shape is (2,7), and on an incoming gradient of that shape
`local_grad` for parent B returns an array of shape (2,4), not B's
shape (5,4). -/
theorem C3_counterexample :
    Concatenate.init 1 ⟨0, npOnes [2, 3]⟩ ⟨1, npOnes [5, 4]⟩ =
      Except.ok ⟨1, ⟨0, npOnes [2, 3]⟩, ⟨1, npOnes [5, 4]⟩⟩ ∧
    Concatenate.shape ⟨1, ⟨0, npOnes [2, 3]⟩, ⟨1, npOnes [5, 4]⟩⟩ = some [2, 7] ∧
    (Concatenate.local_grad ⟨1, ⟨0, npOnes [2, 3]⟩, ⟨1, npOnes [5, 4]⟩⟩
      ⟨1, npOnes [5, 4]⟩ (npOnes [2, 7])).map NDArray.shape = some [2, 4] ∧
    (⟨1, npOnes [5, 4]⟩ : Operand).shape = [5, 4] ∧ ([2, 4] : List Nat) ≠ [5, 4] :=
  ⟨rfl, rfl, rfl, rfl, by decide⟩
theorem C3_witness :
    ((∃ g, MatMult.local_grad c3mm c3mm.A (npOnes [2, 2]) = some g ∧
        g.shape = c3mm.A.shape) ∧
      (∃ g, MatMult.local_grad c3mm c3mm.B (npOnes [2, 2]) = some g ∧
        g.shape = c3mm.B.shape)) ∧
    (∃ g, MatSum.local_grad c3ms c3ms.A (npOnes [1, 3]) = some g ∧
      g.shape = c3ms.A.shape) ∧
    (∃ g, MatAdd.local_grad c3ma c3ma.B (npOnes [3, 4]) = some g ∧
      g.shape = c3ma.B.shape) ∧
    (∃ g, Transpose.local_grad c3tr c3tr.A (npOnes [3, 2]) = some g ∧
      g.shape = c3tr.A.shape) ∧
    (∃ g, Reshape.local_grad c3re c3re.A (npOnes [6]) = some g ∧
      g.shape = c3re.A.shape) ∧
    ((∃ g, Concatenate.local_grad c3cc c3cc.A (npOnes [2, 5]) = some g ∧
        g.shape = c3cc.A.shape) ∧
      (∃ g, Concatenate.local_grad c3cc c3cc.B (npOnes [2, 5]) = some g ∧
        g.shape = c3cc.B.shape)) :=
  ⟨C3_gradient_shapes.1 c3mm.A c3mm.B c3mm 2 3 rfl (by decide) rfl
      (npOnes [2, 2]) rfl (Or.inr rfl),
    C3_gradient_shapes.2.1 c3ms [1, 3] (npOnes [1, 3]) rfl rfl,
    C3_gradient_shapes.2.2.1 c3ma c3ma.B [3, 4] (npOnes [3, 4]) (by decide)
      (Or.inr rfl) rfl rfl,
    C3_gradient_shapes.2.2.2.1 c3tr [3, 2] (npOnes [3, 2]) rfl rfl (Or.inl rfl),
    C3_gradient_shapes.2.2.2.2.1 c3re (npOnes [6]) (by decide) rfl,
    C3_gradient_shapes.2.2.2.2.2 c3cc [2, 5] (npOnes [2, 5]) (by decide)
      (by decide) (by decide) rfl rfl⟩
